import Mathlib

/-!
Verification of the draft/remote reconciliation core of a browser-resident
Markdown blog editor (source: src/scripts/utils.ts, src/scripts/types.ts,
src/scripts/editor.ts).

JavaScript strings are shallowly embedded as `List Char` (`JStr`), so that
the string operations the code relies on (`split`, `join`, `trim`,
`startsWith`, `replace`) become executable recursive functions that can be
reasoned about by induction and evaluated by `decide` on concrete inputs.
-/

/-- JavaScript strings, embedded as lists of characters. -/
abbrev JStr := List Char

/-- Coerce a Lean string literal to the embedded string type. -/
def str (s : String) : JStr := s.data

/-- Prepend a character onto the first piece of a split result (the splitter
accumulates the current piece head-first through this helper). -/
def consHead (c : Char) : List JStr → List JStr
  | [] => [[c]]
  | h :: t => (c :: h) :: t

/-- Prepend a whole chunk onto the first piece of a split result. -/
def consAll (p : JStr) : List JStr → List JStr
  | [] => [p]
  | h :: t => (p ++ h) :: t

/-- Does the string start with the three-character delimiter "---"? -/
def startsDashes : JStr → Bool
  | a :: b :: c :: _ => a == '-' && b == '-' && c == '-'
  | _ => false

/-- JavaScript `s.split("---")`: greedy leftmost split on the front-matter
delimiter, as used by `parseContent`. -/
def splitDashes : JStr → List JStr
  | '-' :: '-' :: '-' :: rest => [] :: splitDashes rest
  | c :: rest => consHead c (splitDashes rest)
  | [] => [[]]

/-- JavaScript `parts.join("---")`, the inverse direction of `splitDashes`. -/
def joinD : List JStr → JStr
  | [] => []
  | [x] => x
  | x :: y :: t => x ++ ('-' :: '-' :: '-' :: joinD (y :: t))

/-- JavaScript `s.split(sep)` for a single-character separator. -/
def splitChar (sep : Char) : JStr → List JStr
  | [] => [[]]
  | c :: rest => if c = sep then [] :: splitChar sep rest else consHead c (splitChar sep rest)

/-- Split on newlines, as used on the serialized YAML block. -/
def splitNL : JStr → List JStr := splitChar '\n'

/-- JavaScript `lines.join("\n")`. -/
def joinNL : List JStr → JStr
  | [] => []
  | [x] => x
  | x :: y :: t => x ++ ('\n' :: joinNL (y :: t))

/-- JavaScript `parts.split(", ")` (two-character separator), used on YAML
flow sequences. -/
def splitCS : JStr → List JStr
  | ',' :: ' ' :: rest => [] :: splitCS rest
  | c :: rest => consHead c (splitCS rest)
  | [] => [[]]

/-- JavaScript `tags.join(", ")`. -/
def joinCS : List JStr → JStr
  | [] => []
  | [x] => x
  | x :: y :: t => x ++ (',' :: ' ' :: joinCS (y :: t))

/-- JavaScript `s.trim()`: drop leading and trailing whitespace. -/
def jsTrim (s : JStr) : JStr :=
  ((s.dropWhile Char.isWhitespace).reverse.dropWhile Char.isWhitespace).reverse

/-- Front-matter metadata (types.ts `Metadata`, with every field optional as
in `Partial<Metadata>`): `tags` is either a single comma-delimited string or
a sequence of strings. -/
structure Metadata where
  title : Option JStr
  published : Option JStr
  updated : Option JStr
  description : Option JStr
  tags : Option (JStr ⊕ List JStr)
  category : Option JStr
deriving DecidableEq, Repr

/-- The empty metadata record (JavaScript `{}`). -/
def Metadata.empty : Metadata := ⟨none, none, none, none, none, none⟩

/-- Metadata after `stringifyMetadata`'s tag cleanup: `tags` is always a
sequence. -/
structure CleanMeta where
  title : Option JStr
  published : Option JStr
  updated : Option JStr
  description : Option JStr
  tags : List JStr
  category : Option JStr
deriving DecidableEq, Repr

/-- Result of `parseContent` (types.ts `ParsedContent`). -/
structure ParsedContent where
  metadata : Metadata
  body : JStr
deriving DecidableEq, Repr

/-- Tag normalization inside `stringifyMetadata`: a string is split on
commas, trimmed and cleared of empty entries; a missing value becomes `[]`;
a sequence is kept as is. -/
def normalizeTags : Option (JStr ⊕ List JStr) → List JStr
  | some (Sum.inl s) => ((splitChar ',' s).map jsTrim).filter (fun t => !t.isEmpty)
  | some (Sum.inr l) => l
  | none => []

/-- The `cleanMeta` record built at the top of `stringifyMetadata`. -/
def cleanMeta (m : Metadata) : CleanMeta :=
  ⟨m.title, m.published, m.updated, m.description, normalizeTags m.tags, m.category⟩

/-- Does a scalar look like a `YYYY-MM-DD` date? Such strings are the ones
the underlying YAML serializer protects with single quotes. -/
def isDateLike (v : JStr) : Bool :=
  match v with
  | [a, b, c, d, e, f, g, h, i, j] =>
    a.isDigit && b.isDigit && c.isDigit && d.isDigit && e == '-' &&
    f.isDigit && g.isDigit && h == '-' && i.isDigit && j.isDigit
  | _ => false

/-- Scalars the YAML serializer would not emit plainly. -/
def needsQuote (v : JStr) : Bool := v.isEmpty || isDateLike v

/-- Render one scalar the way the YAML serializer does: plainly, or wrapped
in single quotes when it could be misread. -/
def renderScalar (v : JStr) : JStr :=
  if needsQuote v then '\'' :: (v ++ ['\'']) else v

/-- Render a sequence in flow style (`flowLevel: 1`): `[e1, e2, ...]`. -/
def renderFlow (l : List JStr) : JStr :=
  '[' :: (joinCS (l.map renderScalar) ++ [']'])

/-- One `key: value` output line for a present field, nothing for an absent
one. The argument is the full line prefix including `": "`. -/
def optLine (kp : JStr) : Option JStr → List JStr
  | none => []
  | some v => [kp ++ renderScalar v]

def kTitleP : JStr := str "title: "
def kPubP : JStr := str "published: "
def kUpdP : JStr := str "updated: "
def kDescP : JStr := str "description: "
def kTagsP : JStr := str "tags: "
def kCatP : JStr := str "category: "

/-- Modelled from the spec: the external YAML serializer (`jsyaml.dump` with
`lineWidth: -1, flowLevel: 1`), which is loaded from a CDN and is not part
of this repository. Each present field is rendered as one `key: value`
line, date-like and empty scalars are single-quoted, the tag sequence is
rendered in flow style, and the output ends with a newline. -/
def yamlDump (m : CleanMeta) : JStr :=
  joinNL (optLine kTitleP m.title ++ optLine kPubP m.published ++
          optLine kUpdP m.updated ++ optLine kDescP m.description ++
          [kTagsP ++ renderFlow m.tags] ++ optLine kCatP m.category) ++ ['\n']

/-- JavaScript `line.replace(/'/g, "")`: delete every single-quote. -/
def quoteFilter (l : JStr) : JStr := l.filter (fun c => !(c == '\''))

/-- The per-line post-processing step of `stringifyMetadata`: strip quotes
from lines starting with `published:`, `updated:` or `tags:`, leave every
other line unchanged. -/
def processLine (l : JStr) : JStr :=
  if (str "published:").isPrefixOf l || (str "updated:").isPrefixOf l ||
     (str "tags:").isPrefixOf l then quoteFilter l else l

/-- utils.ts `stringifyMetadata`: normalize tags, serialize to YAML, strip
stray quotes from the date and tag lines, drop empty lines, re-join. -/
def stringifyMetadata (m : Metadata) : JStr :=
  joinNL (((splitNL (yamlDump (cleanMeta m))).map processLine).filter (fun l => !l.isEmpty))

/-- utils.ts `createFullMarkdown`: front-matter block, blank line, body. -/
def createFullMarkdown (m : Metadata) (body : JStr) : JStr :=
  str "---\n" ++ stringifyMetadata m ++ str "\n---\n\n" ++ body

/-- Find the value of the first line carrying the given `key: ` prefix. -/
def findVal (kp : JStr) : List JStr → Option JStr
  | [] => none
  | l :: ls => if kp.isPrefixOf l then some (l.drop kp.length) else findVal kp ls

/-- Undo scalar quoting: strip a surrounding pair of single quotes. -/
def parseScalar (r : JStr) : JStr :=
  if 2 ≤ r.length ∧ r.head? = some '\'' ∧ r.getLast? = some '\'' then
    (r.drop 1).dropLast
  else r

/-- Read back a flow sequence `[e1, e2, ...]`. -/
def parseFlow (r : JStr) : List JStr :=
  if r.head? = some '[' ∧ r.getLast? = some ']' then
    let inner := ((r.drop 1).dropLast)
    if inner.isEmpty then [] else (splitCS inner).map parseScalar
  else [parseScalar r]

/-- A tags value read back from YAML: a flow sequence or a plain scalar. -/
def parseTagsVal (r : JStr) : JStr ⊕ List JStr :=
  if r.head? = some '[' then Sum.inr (parseFlow r) else Sum.inl (parseScalar r)

/-- Modelled from the spec: the external YAML parser (`jsyaml.load`), which
is loaded from a CDN and is not part of this repository, restricted to the
line-per-field documents the editor produces: each recognized `key: value`
line populates the corresponding field; anything else is ignored. -/
def yamlLoad (s : JStr) : Metadata :=
  let lines := splitNL s
  { title := (findVal kTitleP lines).map parseScalar
    published := (findVal kPubP lines).map parseScalar
    updated := (findVal kUpdP lines).map parseScalar
    description := (findVal kDescP lines).map parseScalar
    tags := (findVal kTagsP lines).map parseTagsVal
    category := (findVal kCatP lines).map parseScalar }

/-- utils.ts `parseContent`: split on the `---` delimiter; with fewer than
three pieces the whole input is the body and the metadata is empty,
otherwise the second piece is parsed as YAML and the rest, re-joined, is the
trimmed body. -/
def parseContent (content : JStr) : ParsedContent :=
  let parts := splitDashes content
  if parts.length < 3 then ⟨Metadata.empty, content⟩
  else ⟨yamlLoad ((parts[1]?).getD []), jsTrim (joinD (parts.drop 2))⟩

example : parseContent (str "hello") = ⟨Metadata.empty, str "hello"⟩ := by decide

example :
    parseContent (str "---\ntitle: Hello\n---\n\nBody text") =
      ⟨{ Metadata.empty with title := some (str "Hello") }, str "Body text"⟩ := by decide

/-- A locally persisted draft (types.ts `Draft`). -/
structure Draft where
  metadata : Metadata
  body : JStr
  savedAt : JStr
deriving DecidableEq, Repr

/-- The localStorage contents relevant to drafts, as an association list
from keys to stored drafts (first binding wins). -/
abbrev Storage := List (JStr × Draft)

/-- localStorage `getItem` on the draft store (first binding wins). -/
def storeLookup (st : Storage) (k : JStr) : Option Draft :=
  match st with
  | [] => none
  | e :: t => if e.1 = k then some e.2 else storeLookup t k

/-- localStorage `setItem`: overwrite any binding at the key. -/
def storeSet (st : Storage) (k : JStr) (d : Draft) : Storage := (k, d) :: st

/-- localStorage `removeItem`. -/
def storeRemove (st : Storage) (k : JStr) : Storage :=
  st.filter (fun e => !(e.1 == k))

/-- The currently open file (types.ts `CurrentFile`): optional path,
optional remote version token (content sha), and the locally-created flag. -/
structure CurrentFile where
  path : Option JStr
  sha : Option JStr
  isNew : Bool
deriving DecidableEq, Repr

/-- The metadata form fields plus the editor widget's body text, i.e. what
the user sees. -/
structure EditorFields where
  title : JStr
  published : JStr
  updated : JStr
  description : JStr
  tags : JStr
  category : JStr
  body : JStr
deriving DecidableEq, Repr

/-- The whole editor state: session identity (editor.ts module-level
`state`), current file, visible fields, the dirty flag, the draft store,
and the ambient environment (storage quota, clock, today's date). The
status line models the `saveStatus` notification surface. -/
structure AppState where
  user : JStr
  repo : JStr
  pat : JStr
  currentFile : CurrentFile
  fields : EditorFields
  isDirty : Bool
  vditorReady : Bool
  storage : Storage
  quotaFull : Bool
  now : JStr
  today : JStr
  statusMsg : JStr
  statusIsError : Bool
deriving DecidableEq, Repr

/-- utils.ts `getDraftKey`: `draft_{user}_{repo}_{path}`, or null without a
path. -/
def getDraftKey (s : AppState) (path : Option JStr) : Option JStr :=
  match path with
  | none => none
  | some p => some (str "draft_" ++ s.user ++ str "_" ++ s.repo ++ str "_" ++ p)

/-- The concrete key for a present path. -/
def draftKeyOf (s : AppState) (p : JStr) : JStr :=
  str "draft_" ++ s.user ++ str "_" ++ s.repo ++ str "_" ++ p

theorem getDraftKey_some (s : AppState) (p : JStr) :
    getDraftKey s (some p) = some (draftKeyOf s p) := rfl

/-- utils.ts `saveDraftToStorage`: write the draft under its key with a
fresh timestamp; a full quota raises the storage error instead. -/
def saveDraftToStorage (s : AppState) (path : JStr) (md : Metadata) (body : JStr) :
    Except JStr Storage :=
  if s.quotaFull then Except.error (str "无法保存草稿，可能是存储空间已满。")
  else Except.ok (storeSet s.storage (draftKeyOf s path) ⟨md, body, s.now⟩)

/-- utils.ts `loadDraftFromStorage` on a well-formed store. -/
def loadDraftFromStorage (s : AppState) (path : JStr) : Option Draft :=
  storeLookup s.storage (draftKeyOf s path)

/-- editor.ts `clearDraft` / utils.ts `clearDraftFromStorage`. -/
def clearDraft (p : JStr) (s : AppState) : AppState :=
  { s with storage := storeRemove s.storage (draftKeyOf s p) }

/-- editor.ts `showSaveStatus`. -/
def showStatus (msg : JStr) (isErr : Bool) (s : AppState) : AppState :=
  { s with statusMsg := msg, statusIsError := isErr }

/-- editor.ts `markAsDirty`: only acts when the state is clean and a file is
open. -/
def markAsDirty (s : AppState) : AppState :=
  if !s.isDirty ∧ s.currentFile.path ≠ none then
    { s with isDirty := true,
             statusMsg := str "未保存的更改 (本地草稿将在 5 秒后更新)",
             statusIsError := false }
  else s

/-- editor.ts `markAsClean`. -/
def markAsClean (s : AppState) : AppState :=
  { s with isDirty := false, statusMsg := [] }

/-- editor.ts `getEditorMetadata`: read the form fields; `tags` stays a
comma-delimited string here. -/
def getEditorMetadata (s : AppState) : Metadata :=
  { title := some s.fields.title
    published := some s.fields.published
    updated := some s.fields.updated
    description := some s.fields.description
    tags := some (Sum.inl s.fields.tags)
    category := some s.fields.category }

/-- Modelled from the spec: `new Date(v).toISOString().split("T")[0]`, the
external JS date normalization applied by `populateEditor`. The editor only
stores `YYYY-MM-DD` strings, on which this is the identity. -/
def jsDateToISO (v : JStr) : JStr := v

/-- The visible fields produced by `populateEditor` from a metadata record
and a body: missing fields display empty, dates are normalized and a tag
sequence is joined with `", "`. -/
def displayFields (md : Metadata) (body : JStr) : EditorFields :=
  { title := md.title.getD []
    published := match md.published with
      | some v => if v.isEmpty then [] else jsDateToISO v
      | none => []
    updated := match md.updated with
      | some v => if v.isEmpty then [] else jsDateToISO v
      | none => []
    description := md.description.getD []
    tags := match md.tags with
      | some (Sum.inr l) => joinCS l
      | some (Sum.inl t) => t
      | none => []
    category := md.category.getD []
    body := body }

/-- editor.ts `populateEditor`. Modelled from the spec: writing the fields
and the editor widget goes through the DOM/Vditor edit-event channel, which
is external to this repository; per the spec's design note every document
mutation emits one edit event, here collapsed into the final `markAsDirty`
(the code's own comment in `loadDraft` relies on exactly this). -/
def populateEditor (md : Metadata) (body : JStr) (s : AppState) : AppState :=
  markAsDirty { s with fields := displayFields md body }

/-- editor.ts `setTodaysDate` (same edit-event convention). -/
def setTodaysDate (s : AppState) : AppState :=
  markAsDirty { s with fields := { s.fields with published := s.today, updated := s.today } }

/-- editor.ts `resetEditorState`: hide the editor and forget the current
file (the DOM class churn is not modelled). -/
def resetEditorState (s : AppState) : AppState :=
  { s with currentFile := ⟨none, none, false⟩ }

/-- editor.ts `logout`: clear the persisted session, the in-memory identity
and the editor state. -/
def logout (s : AppState) : AppState :=
  resetEditorState { s with user := [], repo := [], pat := [] }

/-- editor.ts `saveDraft`, the periodic flush body: a no-op without an open
path, without the editor widget, or while clean; otherwise it persists the
current fields as a draft and marks the state clean, and any storage
failure is caught at this boundary and only reported on the status line. -/
def saveDraft (s : AppState) : AppState :=
  match s.currentFile.path with
  | none => s
  | some p =>
    if !s.vditorReady then s
    else if !s.isDirty then s
    else
      match saveDraftToStorage s p (getEditorMetadata s) s.fields.body with
      | Except.ok st =>
        let s1 := markAsClean { s with storage := st }
        { s1 with statusMsg := str "本地草稿已保存于 " ++ s.now, statusIsError := false }
      | Except.error e => { s with statusMsg := e, statusIsError := true }

/-- editor.ts `loadDraft`: compare the stored draft against the freshly
loaded remote content (both rendered through `createFullMarkdown` and
trimmed); identical drafts are discarded silently, a differing draft
prompts the user (the returned list collects the confirm prompts, each
carrying the draft's save timestamp). `accept` is the user's answer. -/
def loadDraft (p : JStr) (original : ParsedContent) (accept : Bool) (s : AppState) :
    AppState × List JStr :=
  match loadDraftFromStorage s p with
  | none => (s, [])
  | some draft =>
    let originalFull := createFullMarkdown original.metadata original.body
    let draftFull := createFullMarkdown draft.metadata draft.body
    if jsTrim originalFull = jsTrim draftFull then (clearDraft p s, [])
    else if accept then
      (showStatus (str "已从本地加载草稿。") false (populateEditor draft.metadata draft.body s),
       [draft.savedAt])
    else (clearDraft p s, [draft.savedAt])

/-- editor.ts `handleFileClick`, success path: flush the previous file's
draft, switch the current path, adopt the fetched content and version
token, populate the editor, default missing dates to today, mark clean,
then run the divergence check. `remoteContent`/`remoteSha` are the fetch
result and `accept` the user's answer to a divergence prompt, if any. -/
def openFile (accept : Bool) (clickedPath remoteContent remoteSha : JStr) (s0 : AppState) :
    AppState × List JStr :=
  let s1 := saveDraft s0
  let s2 := { s1 with currentFile := { s1.currentFile with path := some clickedPath } }
  let s3 := { s2 with currentFile := { path := some clickedPath, sha := some remoteSha, isNew := false } }
  let pc := parseContent remoteContent
  let s4 := populateEditor pc.metadata pc.body s3
  let s5 := if (match pc.metadata.published with | none => true | some v => v.isEmpty) then
              setTodaysDate s4 else s4
  let s6 := markAsClean s5
  loadDraft clickedPath pc accept s6

/-- A call against the remote content API. -/
inductive RemoteCall where
  | create (path content : JStr)
  | update (path content sha : JStr)
  | del (path sha : JStr)
deriving DecidableEq, Repr

/-- The pre-await part of editor.ts `handleSave`: capture the path and the
serialized content of the request that goes on the wire. -/
def handleSaveStart (s : AppState) : Option (JStr × JStr) :=
  s.currentFile.path.map
    (fun p => (p, createFullMarkdown (getEditorMetadata s) s.fields.body))

/-- The post-await continuation of editor.ts `handleSave`, applied to
whatever state is current when the remote call resolves: adopt the returned
version token, drop the new-file flag, clear the draft of the *currently
active* path, mark clean and report success. -/
def handleSaveApply (newSha : JStr) (s : AppState) : AppState :=
  let s1 := { s with currentFile := { s.currentFile with sha := some newSha, isNew := false } }
  let s2 := match s1.currentFile.path with
            | some p => clearDraft p s1
            | none => s1
  showStatus (str "文件保存成功！") false (markAsClean s2)

/-- editor.ts `handleSave`, run without interleaving: `resp` is the remote
API's answer to the issued call (the fresh version token, or an error
message). The returned list records the remote calls that were attempted. -/
def handleSave (resp : RemoteCall → Except JStr JStr) (s : AppState) :
    AppState × List RemoteCall :=
  match s.currentFile.path with
  | none => (showStatus (str "没有选择要保存的文件。") true s, [])
  | some p =>
    let newContent := createFullMarkdown (getEditorMetadata s) s.fields.body
    if s.currentFile.isNew then
      let call := RemoteCall.create p newContent
      match resp call with
      | Except.ok newSha => (handleSaveApply newSha s, [call])
      | Except.error e => (showStatus (str "保存失败: " ++ e) true s, [call])
    else
      match s.currentFile.sha with
      | none =>
        (showStatus (str "保存失败: " ++ str "更新文件缺少 SHA。请重新加载文件。") true s, [])
      | some sha =>
        let call := RemoteCall.update p newContent sha
        match resp call with
        | Except.ok newSha => (handleSaveApply newSha s, [call])
        | Except.error e => (showStatus (str "保存失败: " ++ e) true s, [call])

/-- Comparator following the spec's words: what the editor is expected to
show right after loading a draft ("populate the editor from the draft"). -/
def draftDisplay (d : Draft) : EditorFields := displayFields d.metadata d.body

/-- Comparator following the spec's words: what the editor is expected to
show when it displays freshly loaded remote content, including the code's
defaulting of a missing published date to today. -/
def remoteDisplay (pc : ParsedContent) (today : JStr) : EditorFields :=
  let f := displayFields pc.metadata pc.body
  if (match pc.metadata.published with | none => true | some v => v.isEmpty) then
    { f with published := today, updated := today }
  else f

/-! Lemmas about the delimiter splitter. -/

theorem startsDashes_of_head (c : Char) (r : JStr) (h : c ≠ '-') :
    startsDashes (c :: r) = false := by
  match r with
  | [] => rfl
  | [b] => rfl
  | b :: d :: r' =>
    simp [startsDashes]
    intro hc
    exact absurd hc h

theorem splitDashes_nil : splitDashes [] = [[]] := rfl

theorem splitDashes_triple (r : JStr) :
    splitDashes ('-' :: '-' :: '-' :: r) = [] :: splitDashes r := rfl

theorem splitDashes_cons (c : Char) (r : JStr) (h : startsDashes (c :: r) = false) :
    splitDashes (c :: r) = consHead c (splitDashes r) := by
  rw [splitDashes.eq_def]
  split
  · rename_i rest2 heq
    injection heq with e1 e2
    subst e1; subst e2
    simp [startsDashes] at h
  · rename_i heq
    injection heq with e1 e2
    subst e1; subst e2; rfl
  · rename_i heq; cases heq

/-- `startsDashes` only inspects the first three characters, so a mismatch
already visible there survives appending after a non-dash separator. -/
theorem startsDashes_append_sep (c : Char) (l' ys : JStr) (sep : Char)
    (hsep : sep ≠ '-') (h : startsDashes (c :: l') = false) :
    startsDashes (c :: (l' ++ sep :: ys)) = false := by
  match l' with
  | [] =>
    match ys with
    | [] => rfl
    | z :: w => simp [startsDashes, hsep]
  | [x] => simp [startsDashes, hsep]
  | x :: y :: l'' => simpa [startsDashes] using h

/-- A string with no `---` occurrence. -/
def noTriple : JStr → Bool
  | [] => true
  | c :: rest => !startsDashes (c :: rest) && noTriple rest

theorem noTriple_cons (c : Char) (r : JStr) (h : noTriple (c :: r) = true) :
    startsDashes (c :: r) = false ∧ noTriple r = true := by
  simp [noTriple] at h
  exact ⟨by simp [h.1], h.2⟩

theorem consHead_eq_consAll (c : Char) (ll : List JStr) :
    consHead c ll = consAll [c] ll := by
  cases ll <;> simp [consHead, consAll]

theorem consHead_consAll (c : Char) (p : JStr) (ll : List JStr) :
    consHead c (consAll p ll) = consAll (c :: p) ll := by
  cases ll <;> simp [consHead, consAll]

/-- Splitting a concatenation whose left part is triple-free and is closed
off by a non-dash separator: the left part lands wholly in the first piece. -/
theorem splitDashes_append_sep (sep : Char) (hsep : sep ≠ '-') :
    ∀ (l ys : JStr), noTriple l = true →
      splitDashes (l ++ sep :: ys) = consAll (l ++ [sep]) (splitDashes ys) := by
  intro l
  induction l with
  | nil =>
    intro ys _
    rw [List.nil_append, splitDashes_cons sep ys (startsDashes_of_head sep ys hsep)]
    simp [consHead_eq_consAll]
  | cons c l' ih =>
    intro ys hl
    obtain ⟨h1, h2⟩ := noTriple_cons c l' hl
    have h3 : startsDashes (c :: (l' ++ sep :: ys)) = false :=
      startsDashes_append_sep c l' ys sep hsep h1
    rw [List.cons_append, splitDashes_cons c (l' ++ sep :: ys) h3, ih ys h2]
    rw [consHead_consAll]
    simp

theorem startsDashes_true (l : JStr) (h : startsDashes l = true) :
    ∃ r, l = '-' :: '-' :: '-' :: r := by
  match l with
  | [] => simp [startsDashes] at h
  | [a] => simp [startsDashes] at h
  | [a, b] => simp [startsDashes] at h
  | a :: b :: c :: r =>
    simp only [startsDashes, Bool.and_eq_true, beq_iff_eq] at h
    obtain ⟨⟨h1, h2⟩, h3⟩ := h
    subst h1; subst h2; subst h3
    exact ⟨r, rfl⟩

theorem splitDashes_ne_nil (s : JStr) : splitDashes s ≠ [] := by
  match s with
  | [] => simp [splitDashes_nil]
  | c :: r =>
    cases h : startsDashes (c :: r) with
    | false =>
      rw [splitDashes_cons c r h]
      cases splitDashes r <;> simp [consHead]
    | true =>
      obtain ⟨r2, heq⟩ := startsDashes_true _ h
      rw [heq, splitDashes_triple]
      simp

theorem joinD_consHead (c : Char) (ll : List JStr) :
    joinD (consHead c ll) = c :: joinD ll := by
  match ll with
  | [] => rfl
  | [x] => rfl
  | x :: y :: t => rfl

/-- Splitting then re-joining on the delimiter restores the string (fuel
recursion on the length): this is why a body containing `---` survives
`parseContent`'s reassembly. -/
theorem joinD_splitDashes_aux : ∀ (n : Nat) (s : JStr), s.length ≤ n →
    joinD (splitDashes s) = s := by
  intro n
  induction n with
  | zero =>
    intro s hs
    have : s = [] := by cases s <;> simp_all
    subst this; rfl
  | succ n ih =>
    intro s hs
    match s with
    | [] => rfl
    | c :: r =>
      cases h : startsDashes (c :: r) with
      | false =>
        rw [splitDashes_cons c r h, joinD_consHead, ih r (by simp at hs; omega)]
      | true =>
        obtain ⟨r2, heq⟩ := startsDashes_true _ h
        have hlen : r2.length ≤ n := by
          have h3 : (c :: r).length = r2.length + 3 := by rw [heq]; simp
          simp at hs h3; omega
        rw [heq, splitDashes_triple]
        have hne := splitDashes_ne_nil r2
        have hstep : joinD ([] :: splitDashes r2) =
            '-' :: '-' :: '-' :: joinD (splitDashes r2) := by
          match hsp : splitDashes r2 with
          | [] => exact absurd hsp hne
          | y :: t => rfl
        rw [hstep, ih r2 hlen]

theorem joinD_splitDashes (s : JStr) : joinD (splitDashes s) = s :=
  joinD_splitDashes_aux s.length s (Nat.le_refl _)

theorem noTriple_append_sep (sep : Char) (hsep : sep ≠ '-') :
    ∀ (x ys : JStr), noTriple x = true → noTriple ys = true →
      noTriple (x ++ sep :: ys) = true := by
  intro x
  induction x with
  | nil =>
    intro ys _ hys
    rw [List.nil_append]
    simp [noTriple, hys, startsDashes_of_head sep ys hsep]
  | cons c x' ih =>
    intro ys hx hys
    obtain ⟨h1, h2⟩ := noTriple_cons c x' hx
    rw [List.cons_append]
    simp [noTriple, ih ys h2 hys, startsDashes_append_sep c x' ys sep hsep h1]

theorem noTriple_cons_safe (c : Char) (r : JStr) (hc : c ≠ '-')
    (hr : noTriple r = true) : noTriple (c :: r) = true := by
  simp [noTriple, hr, startsDashes_of_head c r hc]

theorem jsTrim_cons_ws (c : Char) (s : JStr) (h : c.isWhitespace = true) :
    jsTrim (c :: s) = jsTrim s := by
  simp [jsTrim, List.dropWhile_cons, h]

/-- The split structure of a serialized full document whose front-matter
block is triple-free: the delimiter pieces are exactly the empty lead-in,
the metadata region, and the body pieces. -/
theorem splitDashes_full (mblock b : JStr) (hm : noTriple mblock = true) :
    splitDashes (str "---\n" ++ mblock ++ str "\n---\n\n" ++ b) =
      [] :: (('\n' :: mblock) ++ ['\n']) ::
        consHead '\n' (consHead '\n' (splitDashes b)) := by
  have hshape : str "---\n" ++ mblock ++ str "\n---\n\n" ++ b =
      '-' :: '-' :: '-' :: (('\n' :: mblock) ++ '\n' ::
        ('-' :: '-' :: '-' :: ('\n' :: '\n' :: b))) := by
    simp [str]
  rw [hshape, splitDashes_triple]
  have hnm : noTriple ('\n' :: mblock) = true :=
    noTriple_cons_safe '\n' mblock (by decide) hm
  rw [splitDashes_append_sep '\n' (by decide) ('\n' :: mblock) _ hnm]
  rw [splitDashes_triple]
  have h1 : startsDashes ('\n' :: '\n' :: b) = false :=
    startsDashes_of_head _ _ (by decide)
  have h2 : startsDashes ('\n' :: b) = false :=
    startsDashes_of_head _ _ (by decide)
  rw [splitDashes_cons _ _ h1, splitDashes_cons _ _ h2]
  cases hsp : splitDashes b with
  | nil => exact absurd hsp (splitDashes_ne_nil b)
  | cons y t => simp [consAll, consHead]

theorem joinD_consHead_consHead (b : JStr) :
    joinD (consHead '\n' (consHead '\n' (splitDashes b))) = '\n' :: '\n' :: b := by
  rw [joinD_consHead, joinD_consHead, joinD_splitDashes]

/-- `parseContent` of a serialized document with a triple-free metadata
block: the metadata region reaches `yamlLoad` wrapped in newlines, and the
body comes back trimmed. -/
theorem parseContent_full (mblock b : JStr) (hm : noTriple mblock = true) :
    parseContent (str "---\n" ++ mblock ++ str "\n---\n\n" ++ b) =
      ⟨yamlLoad (('\n' :: mblock) ++ ['\n']), jsTrim b⟩ := by
  rw [parseContent, splitDashes_full mblock b hm]
  have hlen : ¬ ([] :: (('\n' :: mblock) ++ ['\n']) ::
      consHead '\n' (consHead '\n' (splitDashes b))).length < 3 := by
    cases hsp : splitDashes b with
    | nil => exact absurd hsp (splitDashes_ne_nil b)
    | cons y t => cases t <;> simp [consHead]
  simp only [hlen, if_false]
  have hdrop : ([] :: (('\n' :: mblock) ++ ['\n']) ::
      consHead '\n' (consHead '\n' (splitDashes b))).drop 2 =
      consHead '\n' (consHead '\n' (splitDashes b)) := rfl
  rw [hdrop, joinD_consHead_consHead]
  have htrim : jsTrim ('\n' :: '\n' :: b) = jsTrim b := by
    rw [jsTrim_cons_ws _ _ (by decide), jsTrim_cons_ws _ _ (by decide)]
  rw [htrim]
  simp

/-! Lemmas about single-character splits, line lookup and scalar quoting. -/

theorem splitChar_sep (sep : Char) (r : JStr) :
    splitChar sep (sep :: r) = [] :: splitChar sep r := by
  simp [splitChar]

theorem splitChar_cons (sep c : Char) (r : JStr) (h : c ≠ sep) :
    splitChar sep (c :: r) = consHead c (splitChar sep r) := by
  simp [splitChar, h]

theorem splitChar_append (sep : Char) :
    ∀ (x ys : JStr), sep ∉ x →
      splitChar sep (x ++ sep :: ys) = x :: splitChar sep ys := by
  intro x
  induction x with
  | nil => intro ys _; rw [List.nil_append, splitChar_sep]
  | cons c x' ih =>
    intro ys hx
    have hc : c ≠ sep := fun hcc => hx (hcc ▸ List.mem_cons_self c x')
    have hx' : sep ∉ x' := fun hm => hx (List.mem_cons_of_mem c hm)
    rw [List.cons_append, splitChar_cons sep c _ hc, ih ys hx']
    rfl

theorem splitChar_no_sep (sep : Char) :
    ∀ (x : JStr), sep ∉ x → splitChar sep x = [x] := by
  intro x
  induction x with
  | nil => intro _; rfl
  | cons c x' ih =>
    intro hx
    have hc : c ≠ sep := fun hcc => hx (hcc ▸ List.mem_cons_self c x')
    have hx' : sep ∉ x' := fun hm => hx (List.mem_cons_of_mem c hm)
    rw [splitChar_cons sep c x' hc, ih hx']
    rfl

theorem splitNL_joinNL (L : List JStr) (hL : ∀ l ∈ L, '\n' ∉ l) (hne : L ≠ []) :
    splitNL (joinNL L ++ ['\n']) = L ++ [[]] := by
  induction L with
  | nil => exact absurd rfl hne
  | cons x t ih =>
    match t with
    | [] =>
      have hx := hL x (List.mem_cons_self x [])
      show splitChar '\n' (x ++ '\n' :: []) = [x, []]
      rw [splitChar_append '\n' x [] hx]
      rfl
    | y :: t' =>
      have hx := hL x (List.mem_cons_self x _)
      have hrest : ∀ l ∈ y :: t', '\n' ∉ l := fun l hm => hL l (List.mem_cons_of_mem x hm)
      have hstep : joinNL (x :: y :: t') ++ ['\n'] = x ++ '\n' :: (joinNL (y :: t') ++ ['\n']) := by
        show (x ++ ('\n' :: joinNL (y :: t'))) ++ ['\n'] = _
        simp
      rw [hstep]
      show splitChar '\n' _ = _
      rw [splitChar_append '\n' x _ hx]
      rw [show splitChar '\n' (joinNL (y :: t') ++ ['\n']) = splitNL (joinNL (y :: t') ++ ['\n']) from rfl]
      rw [ih hrest (by simp)]
      rfl

theorem findVal_cons_pos (kp rest : JStr) (ls : List JStr) :
    findVal kp ((kp ++ rest) :: ls) = some rest := by
  have hpre : kp.isPrefixOf (kp ++ rest) = true := by
    induction kp with
    | nil => simp [List.isPrefixOf]
    | cons c k ih => simp [List.isPrefixOf, ih]
  simp [findVal, hpre, List.drop_left]

theorem findVal_cons_neg (kp l : JStr) (ls : List JStr) (h : kp.isPrefixOf l = false) :
    findVal kp (l :: ls) = findVal kp ls := by
  simp [findVal, h]

theorem findVal_append (kp : JStr) (A B : List JStr) :
    findVal kp (A ++ B) =
      match findVal kp A with
      | some v => some v
      | none => findVal kp B := by
  induction A with
  | nil => rfl
  | cons l A' ih =>
    cases h : kp.isPrefixOf l with
    | false => rw [List.cons_append, findVal_cons_neg kp l _ h, findVal_cons_neg kp l _ h, ih]
    | true => simp [findVal, h]

theorem parseScalar_renderScalar (v : JStr) (hq : '\'' ∉ v) :
    parseScalar (renderScalar v) = v := by
  cases h : needsQuote v with
  | true =>
    have hrs : renderScalar v = '\'' :: (v ++ ['\'']) := by
      unfold renderScalar; rw [if_pos h]
    have hlast : ('\'' :: (v ++ ['\''])).getLast? = some '\'' := by
      have he : '\'' :: (v ++ ['\'']) = ('\'' :: v) ++ ['\''] := by simp
      rw [he, List.getLast?_concat]
    have hcond : 2 ≤ ('\'' :: (v ++ ['\''])).length ∧
        ('\'' :: (v ++ ['\''])).head? = some '\'' ∧
        ('\'' :: (v ++ ['\''])).getLast? = some '\'' := ⟨by simp, rfl, hlast⟩
    rw [hrs, parseScalar, if_pos hcond]
    show (v ++ ['\'']).dropLast = v
    simp
  | false =>
    have hrs : renderScalar v = v := by
      unfold renderScalar; rw [if_neg]; simp [h]
    have hcond : ¬ (2 ≤ v.length ∧ v.head? = some '\'' ∧ v.getLast? = some '\'') := by
      intro hc
      obtain ⟨_, hh, _⟩ := hc
      match v, hh with
      | c :: v', hh =>
        injection hh with hh
        exact hq (hh ▸ List.mem_cons_self c v')
    rw [hrs, parseScalar, if_neg hcond]

/-! Safety conditions under which the modelled YAML layer is faithful: the
round-trip statements are restricted to metadata whose field values are
single-line, quote-free and delimiter-free, matching what the external
serializer handles without block scalars or escaping. -/

/-- A scalar value that serializes on one line without escaping. -/
def SafeVal (v : JStr) : Prop := '\n' ∉ v ∧ '\'' ∉ v ∧ noTriple v = true

/-- Safety of an optional scalar field. -/
def SafeOpt : Option JStr → Prop
  | none => True
  | some v => SafeVal v

/-- A tag entry that survives flow rendering: nonempty and comma-free on
top of scalar safety. -/
def SafeTag (e : JStr) : Prop := e ≠ [] ∧ ',' ∉ e ∧ SafeVal e

/-- Safety of a cleaned metadata record. -/
def SafeClean (c : CleanMeta) : Prop :=
  SafeOpt c.title ∧ SafeOpt c.published ∧ SafeOpt c.updated ∧
  SafeOpt c.description ∧ SafeOpt c.category ∧ ∀ e ∈ c.tags, SafeTag e

instance (v : JStr) : Decidable (SafeVal v) :=
  show Decidable (_ ∧ _ ∧ _) from inferInstance

instance : (o : Option JStr) → Decidable (SafeOpt o)
  | none => isTrue trivial
  | some v => show Decidable (SafeVal v) from inferInstance

instance (e : JStr) : Decidable (SafeTag e) :=
  show Decidable (_ ∧ _ ∧ _) from inferInstance

instance (c : CleanMeta) : Decidable (SafeClean c) :=
  show Decidable (_ ∧ _ ∧ _ ∧ _ ∧ _ ∧ _) from inferInstance

theorem quoteFilter_append (a b : JStr) :
    quoteFilter (a ++ b) = quoteFilter a ++ quoteFilter b := by
  simp [quoteFilter]

theorem quoteFilter_no_quote (l : JStr) (h : '\'' ∉ l) : quoteFilter l = l := by
  rw [quoteFilter, List.filter_eq_self]
  intro a ha
  have hne : a ≠ '\'' := fun he => h (he ▸ ha)
  simp [hne]

theorem quoteFilter_renderScalar (v : JStr) (h : '\'' ∉ v) :
    quoteFilter (renderScalar v) = v := by
  rw [renderScalar]
  cases hq : needsQuote v with
  | true =>
    rw [if_pos rfl]
    show quoteFilter (['\''] ++ (v ++ ['\''])) = v
    rw [quoteFilter_append, quoteFilter_append, quoteFilter_no_quote v h]
    have hq1 : quoteFilter ['\''] = [] := rfl
    simp [hq1]
  | false =>
    rw [if_neg (by decide)]
    exact quoteFilter_no_quote v h

theorem noTriple_renderScalar (v : JStr) (h : noTriple v = true) :
    noTriple (renderScalar v) = true := by
  rw [renderScalar]
  cases hq : needsQuote v with
  | true =>
    rw [if_pos rfl]
    exact noTriple_cons_safe _ _ (by decide)
      (noTriple_append_sep '\'' (by decide) v [] h rfl)
  | false =>
    rw [if_neg (by decide)]
    exact h

theorem noTriple_joinCS (L : List JStr) (h : ∀ e ∈ L, noTriple e = true) :
    noTriple (joinCS L) = true := by
  match L with
  | [] => rfl
  | [x] => exact h x (List.mem_cons_self x [])
  | x :: y :: t =>
    have hx := h x (List.mem_cons_self x _)
    have ht : ∀ e ∈ y :: t, noTriple e = true :=
      fun e he => h e (List.mem_cons_of_mem x he)
    show noTriple (x ++ ',' :: (' ' :: joinCS (y :: t))) = true
    exact noTriple_append_sep ',' (by decide) x _ hx
      (noTriple_cons_safe _ _ (by decide) (noTriple_joinCS (y :: t) ht))

theorem noTriple_joinNL (L : List JStr) (h : ∀ e ∈ L, noTriple e = true) :
    noTriple (joinNL L) = true := by
  match L with
  | [] => rfl
  | [x] => exact h x (List.mem_cons_self x [])
  | x :: y :: t =>
    have hx := h x (List.mem_cons_self x _)
    have ht : ∀ e ∈ y :: t, noTriple e = true :=
      fun e he => h e (List.mem_cons_of_mem x he)
    show noTriple (x ++ '\n' :: joinNL (y :: t)) = true
    exact noTriple_append_sep '\n' (by decide) x _ hx (noTriple_joinNL (y :: t) ht)

/-! Lemmas about the two-character flow-sequence splitter. -/

/-- Does the string start with the separator `", "`? -/
def startsCS : JStr → Bool
  | ',' :: ' ' :: _ => true
  | _ => false

theorem startsCS_of_head (c : Char) (r : JStr) (h : c ≠ ',') :
    startsCS (c :: r) = false := by
  rw [startsCS.eq_def]
  split
  · rename_i tail heq
    injection heq with e1 e2
    exact absurd e1 h
  · rfl

theorem splitCS_pair (r : JStr) : splitCS (',' :: ' ' :: r) = [] :: splitCS r := rfl

theorem splitCS_cons (c : Char) (r : JStr) (h : startsCS (c :: r) = false) :
    splitCS (c :: r) = consHead c (splitCS r) := by
  rw [splitCS.eq_def]
  split
  · rename_i rest2 heq
    injection heq with e1 e2
    subst e1; subst e2
    simp [startsCS] at h
  · rename_i heq
    injection heq with e1 e2
    subst e1; subst e2; rfl
  · rename_i heq; cases heq

theorem splitCS_append : ∀ (x ys : JStr), ',' ∉ x →
    splitCS (x ++ ',' :: ' ' :: ys) = x :: splitCS ys := by
  intro x
  induction x with
  | nil => intro ys _; rw [List.nil_append, splitCS_pair]
  | cons c x' ih =>
    intro ys hx
    have hc : c ≠ ',' := fun hcc => hx (hcc ▸ List.mem_cons_self c x')
    have hx' : ',' ∉ x' := fun hm => hx (List.mem_cons_of_mem c hm)
    rw [List.cons_append, splitCS_cons c _ (startsCS_of_head c _ hc), ih ys hx']
    rfl

theorem splitCS_no_comma : ∀ (x : JStr), ',' ∉ x → splitCS x = [x] := by
  intro x
  induction x with
  | nil => intro _; rfl
  | cons c x' ih =>
    intro hx
    have hc : c ≠ ',' := fun hcc => hx (hcc ▸ List.mem_cons_self c x')
    have hx' : ',' ∉ x' := fun hm => hx (List.mem_cons_of_mem c hm)
    rw [splitCS_cons c x' (startsCS_of_head c x' hc), ih hx']
    rfl

theorem splitCS_joinCS (L : List JStr) (h : ∀ e ∈ L, ',' ∉ e) (hne : L ≠ []) :
    splitCS (joinCS L) = L := by
  match L with
  | [x] => exact splitCS_no_comma x (h x (List.mem_cons_self x []))
  | x :: y :: t =>
    have hx := h x (List.mem_cons_self x _)
    have ht : ∀ e ∈ y :: t, ',' ∉ e := fun e he => h e (List.mem_cons_of_mem x he)
    show splitCS (x ++ ',' :: ' ' :: joinCS (y :: t)) = x :: y :: t
    rw [splitCS_append x _ hx, splitCS_joinCS (y :: t) ht (by simp)]

theorem parseScalar_no_quote (v : JStr) (h : '\'' ∉ v) : parseScalar v = v := by
  have hcond : ¬ (2 ≤ v.length ∧ v.head? = some '\'' ∧ v.getLast? = some '\'') := by
    intro hc
    obtain ⟨_, hh, _⟩ := hc
    match v, hh with
    | c :: v', hh =>
      injection hh with hh
      exact h (hh ▸ List.mem_cons_self c v')
  rw [parseScalar, if_neg hcond]

theorem quoteFilter_joinCS_render (L : List JStr) (h : ∀ e ∈ L, '\'' ∉ e) :
    quoteFilter (joinCS (L.map renderScalar)) = joinCS L := by
  match L with
  | [] => rfl
  | [x] => exact quoteFilter_renderScalar x (h x (List.mem_cons_self x []))
  | x :: y :: t =>
    have hx := h x (List.mem_cons_self x _)
    have ht : ∀ e ∈ y :: t, '\'' ∉ e := fun e he => h e (List.mem_cons_of_mem x he)
    show quoteFilter (renderScalar x ++ ',' :: ' ' :: joinCS ((y :: t).map renderScalar)) =
      x ++ ',' :: ' ' :: joinCS (y :: t)
    rw [quoteFilter_append, quoteFilter_renderScalar x hx]
    have hcs : quoteFilter (',' :: ' ' :: joinCS ((y :: t).map renderScalar)) =
        ',' :: ' ' :: quoteFilter (joinCS ((y :: t).map renderScalar)) := by
      simp [quoteFilter]
    rw [hcs, quoteFilter_joinCS_render (y :: t) ht]

/-- The joined flow body of a sequence of nonempty entries is nonempty. -/
theorem joinCS_ne_nil (L : List JStr) (hne : L ≠ []) (h : ∀ e ∈ L, e ≠ []) :
    joinCS L ≠ [] := by
  match L with
  | [x] => exact h x (List.mem_cons_self x [])
  | x :: y :: t =>
    have hx := h x (List.mem_cons_self x _)
    show x ++ ',' :: ' ' :: joinCS (y :: t) ≠ []
    simp

theorem parseFlow_flow (L : List JStr) (h : ∀ e ∈ L, SafeTag e) :
    parseFlow ('[' :: (joinCS L ++ [']'])) = L := by
  have hlast : ('[' :: (joinCS L ++ [']'])).getLast? = some ']' := by
    have he : '[' :: (joinCS L ++ [']']) = ('[' :: joinCS L) ++ [']'] := by simp
    rw [he, List.getLast?_concat]
  rw [parseFlow, if_pos ⟨rfl, hlast⟩]
  have hinner : (('[' :: (joinCS L ++ [']'])).drop 1).dropLast = joinCS L := by
    show (joinCS L ++ [']']).dropLast = joinCS L
    simp
  rw [hinner]
  match L with
  | [] => rfl
  | x :: t =>
    have hnemp : ∀ e ∈ x :: t, e ≠ [] := fun e he => (h e he).1
    have hcomma : ∀ e ∈ x :: t, ',' ∉ e := fun e he => (h e he).2.1
    have hq : ∀ e ∈ x :: t, '\'' ∉ e := fun e he => (h e he).2.2.2.1
    have hjne : joinCS (x :: t) ≠ [] := joinCS_ne_nil (x :: t) (by simp) hnemp
    rw [if_neg (by simpa [List.isEmpty_iff] using hjne)]
    rw [splitCS_joinCS (x :: t) hcomma (by simp)]
    have hid : ∀ e ∈ x :: t, parseScalar e = e :=
      fun e he => parseScalar_no_quote e (hq e he)
    calc (x :: t).map parseScalar = (x :: t).map id := List.map_congr_left hid
      _ = x :: t := by simp

/-! Characterization of `stringifyMetadata` on safe metadata. -/

/-- A date/tag output line after quote stripping: the raw value follows the
key directly. -/
def strippedLine (kp : JStr) : Option JStr → List JStr
  | none => []
  | some v => [kp ++ v]

/-- The serializer's line list before post-processing. -/
def dumpLines (c : CleanMeta) : List JStr :=
  optLine kTitleP c.title ++ optLine kPubP c.published ++ optLine kUpdP c.updated ++
  optLine kDescP c.description ++ [kTagsP ++ renderFlow c.tags] ++ optLine kCatP c.category

theorem yamlDump_eq (c : CleanMeta) : yamlDump c = joinNL (dumpLines c) ++ ['\n'] := rfl

/-- A flow sequence with unquoted entries, as left by the quote stripping. -/
def flowPlain (L : List JStr) : JStr := '[' :: (joinCS L ++ [']'])

/-- The line list after `processLine` ran over every serializer line. -/
def procLines (c : CleanMeta) : List JStr :=
  optLine kTitleP c.title ++ strippedLine kPubP c.published ++ strippedLine kUpdP c.updated ++
  optLine kDescP c.description ++ [kTagsP ++ flowPlain c.tags] ++ optLine kCatP c.category

theorem procLine_title (w : JStr) : processLine (kTitleP ++ w) = kTitleP ++ w := by
  have h1 : (str "published:").isPrefixOf (kTitleP ++ w) = false := rfl
  have h2 : (str "updated:").isPrefixOf (kTitleP ++ w) = false := rfl
  have h3 : (str "tags:").isPrefixOf (kTitleP ++ w) = false := rfl
  unfold processLine
  rw [h1, h2, h3]
  rfl

theorem procLine_desc (w : JStr) : processLine (kDescP ++ w) = kDescP ++ w := by
  have h1 : (str "published:").isPrefixOf (kDescP ++ w) = false := rfl
  have h2 : (str "updated:").isPrefixOf (kDescP ++ w) = false := rfl
  have h3 : (str "tags:").isPrefixOf (kDescP ++ w) = false := rfl
  unfold processLine
  rw [h1, h2, h3]
  rfl

theorem procLine_cat (w : JStr) : processLine (kCatP ++ w) = kCatP ++ w := by
  have h1 : (str "published:").isPrefixOf (kCatP ++ w) = false := rfl
  have h2 : (str "updated:").isPrefixOf (kCatP ++ w) = false := rfl
  have h3 : (str "tags:").isPrefixOf (kCatP ++ w) = false := rfl
  unfold processLine
  rw [h1, h2, h3]
  rfl

theorem procLine_pub (w : JStr) : processLine (kPubP ++ w) = kPubP ++ quoteFilter w := by
  have h1 : (str "published:").isPrefixOf (kPubP ++ w) = true := rfl
  unfold processLine
  rw [h1]
  show quoteFilter (kPubP ++ w) = kPubP ++ quoteFilter w
  rw [quoteFilter_append]
  rfl

theorem procLine_upd (w : JStr) : processLine (kUpdP ++ w) = kUpdP ++ quoteFilter w := by
  have h0 : (str "published:").isPrefixOf (kUpdP ++ w) = false := rfl
  have h1 : (str "updated:").isPrefixOf (kUpdP ++ w) = true := rfl
  unfold processLine
  rw [h0, h1]
  show quoteFilter (kUpdP ++ w) = kUpdP ++ quoteFilter w
  rw [quoteFilter_append]
  rfl

theorem procLine_tags (w : JStr) : processLine (kTagsP ++ w) = kTagsP ++ quoteFilter w := by
  have h0 : (str "published:").isPrefixOf (kTagsP ++ w) = false := rfl
  have h1 : (str "updated:").isPrefixOf (kTagsP ++ w) = false := rfl
  have h2 : (str "tags:").isPrefixOf (kTagsP ++ w) = true := rfl
  unfold processLine
  rw [h0, h1, h2]
  show quoteFilter (kTagsP ++ w) = kTagsP ++ quoteFilter w
  rw [quoteFilter_append]
  rfl

theorem quoteFilter_renderFlow (L : List JStr) (h : ∀ e ∈ L, '\'' ∉ e) :
    quoteFilter (renderFlow L) = flowPlain L := by
  unfold renderFlow flowPlain
  have hstep : quoteFilter ('[' :: (joinCS (L.map renderScalar) ++ [']'])) =
      '[' :: quoteFilter (joinCS (L.map renderScalar) ++ [']']) := by
    simp [quoteFilter]
  rw [hstep, quoteFilter_append, quoteFilter_joinCS_render L h]
  rfl

theorem mapProc_title (v : Option JStr) :
    (optLine kTitleP v).map processLine = optLine kTitleP v := by
  cases v with
  | none => rfl
  | some x => simp [optLine, procLine_title]

theorem mapProc_desc (v : Option JStr) :
    (optLine kDescP v).map processLine = optLine kDescP v := by
  cases v with
  | none => rfl
  | some x => simp [optLine, procLine_desc]

theorem mapProc_cat (v : Option JStr) :
    (optLine kCatP v).map processLine = optLine kCatP v := by
  cases v with
  | none => rfl
  | some x => simp [optLine, procLine_cat]

theorem mapProc_pub (v : Option JStr) (hv : SafeOpt v) :
    (optLine kPubP v).map processLine = strippedLine kPubP v := by
  cases v with
  | none => rfl
  | some x =>
    simp only [optLine, strippedLine, List.map_cons, List.map_nil, procLine_pub]
    rw [quoteFilter_renderScalar x hv.2.1]

theorem mapProc_upd (v : Option JStr) (hv : SafeOpt v) :
    (optLine kUpdP v).map processLine = strippedLine kUpdP v := by
  cases v with
  | none => rfl
  | some x =>
    simp only [optLine, strippedLine, List.map_cons, List.map_nil, procLine_upd]
    rw [quoteFilter_renderScalar x hv.2.1]

theorem map_processLine_dumpLines (c : CleanMeta) (h : SafeClean c) :
    (dumpLines c).map processLine = procLines c := by
  obtain ⟨h1, h2, h3, h4, h5, h6⟩ := h
  have htagq : ∀ e ∈ c.tags, '\'' ∉ e := fun e he => (h6 e he).2.2.2.1
  unfold dumpLines procLines
  simp only [List.map_append, List.map_cons, List.map_nil]
  rw [mapProc_title, mapProc_pub _ h2, mapProc_upd _ h3, mapProc_desc, mapProc_cat,
      procLine_tags, quoteFilter_renderFlow c.tags htagq]

theorem nl_notin_renderScalar (v : JStr) (h : '\n' ∉ v) : '\n' ∉ renderScalar v := by
  unfold renderScalar
  split
  · intro hm
    rcases List.mem_cons.mp hm with he | hm2
    · exact absurd he (by decide)
    · rcases List.mem_append.mp hm2 with hv | he2
      · exact h hv
      · rcases List.mem_singleton.mp he2 with he3
        exact absurd he3 (by decide)
  · exact h

theorem nl_notin_joinCS (L : List JStr) (h : ∀ e ∈ L, '\n' ∉ e) :
    '\n' ∉ joinCS L := by
  match L with
  | [] => simp [joinCS]
  | [x] => exact h x (List.mem_cons_self x [])
  | x :: y :: t =>
    have hx := h x (List.mem_cons_self x _)
    have ht : ∀ e ∈ y :: t, '\n' ∉ e := fun e he => h e (List.mem_cons_of_mem x he)
    show '\n' ∉ x ++ ',' :: ' ' :: joinCS (y :: t)
    intro hm
    rcases List.mem_append.mp hm with hv | hm2
    · exact hx hv
    · rcases List.mem_cons.mp hm2 with he | hm3
      · exact absurd he (by decide)
      · rcases List.mem_cons.mp hm3 with he | hm4
        · exact absurd he (by decide)
        · exact nl_notin_joinCS (y :: t) ht hm4

theorem nl_notin_keyline (kp : JStr) (hk : '\n' ∉ kp) (x : JStr) (hx : '\n' ∉ x) :
    '\n' ∉ kp ++ x := by
  intro hm
  rcases List.mem_append.mp hm with hv | hv
  · exact hk hv
  · exact hx hv

theorem nl_notin_flowPlain (L : List JStr) (h : ∀ e ∈ L, '\n' ∉ e) :
    '\n' ∉ flowPlain L := by
  unfold flowPlain
  intro hm
  rcases List.mem_cons.mp hm with he | hm2
  · exact absurd he (by decide)
  · rcases List.mem_append.mp hm2 with hv | he2
    · exact nl_notin_joinCS L h hv
    · rcases List.mem_singleton.mp he2 with he3
      exact absurd he3 (by decide)

theorem procLines_nl (c : CleanMeta) (h : SafeClean c) :
    ∀ l ∈ procLines c, '\n' ∉ l := by
  obtain ⟨h1, h2, h3, h4, h5, h6⟩ := h
  have htagnl : ∀ e ∈ c.tags, '\n' ∉ e := fun e he => (h6 e he).2.2.1
  intro l hl
  unfold procLines at hl
  simp only [List.mem_append, List.mem_cons, List.mem_singleton] at hl
  rcases hl with ((((hA | hB) | hC) | hD) | hE) | hF
  · cases hv : c.title with
    | none => rw [hv] at hA; cases hA
    | some x =>
      rw [hv] at hA
      rcases List.mem_singleton.mp hA with rfl
      have hx : SafeVal x := by rw [hv] at h1; exact h1
      exact nl_notin_keyline kTitleP (by decide) _ (nl_notin_renderScalar x hx.1)
  · cases hv : c.published with
    | none => rw [hv] at hB; cases hB
    | some x =>
      rw [hv] at hB
      rcases List.mem_singleton.mp hB with rfl
      have hx : SafeVal x := by rw [hv] at h2; exact h2
      exact nl_notin_keyline kPubP (by decide) _ hx.1
  · cases hv : c.updated with
    | none => rw [hv] at hC; cases hC
    | some x =>
      rw [hv] at hC
      rcases List.mem_singleton.mp hC with rfl
      have hx : SafeVal x := by rw [hv] at h3; exact h3
      exact nl_notin_keyline kUpdP (by decide) _ hx.1
  · cases hv : c.description with
    | none => rw [hv] at hD; cases hD
    | some x =>
      rw [hv] at hD
      rcases List.mem_singleton.mp hD with rfl
      have hx : SafeVal x := by rw [hv] at h4; exact h4
      exact nl_notin_keyline kDescP (by decide) _ (nl_notin_renderScalar x hx.1)
  · rcases hE with rfl | hE0
    · exact nl_notin_keyline kTagsP (by decide) _ (nl_notin_flowPlain c.tags htagnl)
    · cases hE0
  · cases hv : c.category with
    | none => rw [hv] at hF; cases hF
    | some x =>
      rw [hv] at hF
      rcases List.mem_singleton.mp hF with rfl
      have hx : SafeVal x := by rw [hv] at h5; exact h5
      exact nl_notin_keyline kCatP (by decide) _ (nl_notin_renderScalar x hx.1)

theorem optLine_mem (kp : JStr) (v : Option JStr) (l : JStr) (h : l ∈ optLine kp v) :
    ∃ x, v = some x ∧ l = kp ++ renderScalar x := by
  cases hv : v with
  | none => rw [hv] at h; cases h
  | some x =>
    rw [hv] at h
    rcases List.mem_singleton.mp h with rfl
    exact ⟨x, rfl, rfl⟩

theorem strippedLine_mem (kp : JStr) (v : Option JStr) (l : JStr)
    (h : l ∈ strippedLine kp v) : ∃ x, v = some x ∧ l = kp ++ x := by
  cases hv : v with
  | none => rw [hv] at h; cases h
  | some x =>
    rw [hv] at h
    rcases List.mem_singleton.mp h with rfl
    exact ⟨x, rfl, rfl⟩

theorem dumpLines_mem (c : CleanMeta) (l : JStr) (hl : l ∈ dumpLines c) :
    (∃ x, c.title = some x ∧ l = kTitleP ++ renderScalar x) ∨
    (∃ x, c.published = some x ∧ l = kPubP ++ renderScalar x) ∨
    (∃ x, c.updated = some x ∧ l = kUpdP ++ renderScalar x) ∨
    (∃ x, c.description = some x ∧ l = kDescP ++ renderScalar x) ∨
    (l = kTagsP ++ renderFlow c.tags) ∨
    (∃ x, c.category = some x ∧ l = kCatP ++ renderScalar x) := by
  unfold dumpLines at hl
  simp only [List.mem_append, List.mem_cons, List.mem_singleton] at hl
  rcases hl with ((((hA | hB) | hC) | hD) | hE) | hF
  · exact Or.inl (optLine_mem _ _ _ hA)
  · exact Or.inr (Or.inl (optLine_mem _ _ _ hB))
  · exact Or.inr (Or.inr (Or.inl (optLine_mem _ _ _ hC)))
  · exact Or.inr (Or.inr (Or.inr (Or.inl (optLine_mem _ _ _ hD))))
  · rcases hE with rfl | hE0
    · exact Or.inr (Or.inr (Or.inr (Or.inr (Or.inl rfl))))
    · cases hE0
  · exact Or.inr (Or.inr (Or.inr (Or.inr (Or.inr (optLine_mem _ _ _ hF)))))

theorem procLines_mem (c : CleanMeta) (l : JStr) (hl : l ∈ procLines c) :
    (∃ x, c.title = some x ∧ l = kTitleP ++ renderScalar x) ∨
    (∃ x, c.published = some x ∧ l = kPubP ++ x) ∨
    (∃ x, c.updated = some x ∧ l = kUpdP ++ x) ∨
    (∃ x, c.description = some x ∧ l = kDescP ++ renderScalar x) ∨
    (l = kTagsP ++ flowPlain c.tags) ∨
    (∃ x, c.category = some x ∧ l = kCatP ++ renderScalar x) := by
  unfold procLines at hl
  simp only [List.mem_append, List.mem_cons, List.mem_singleton] at hl
  rcases hl with ((((hA | hB) | hC) | hD) | hE) | hF
  · exact Or.inl (optLine_mem _ _ _ hA)
  · exact Or.inr (Or.inl (strippedLine_mem _ _ _ hB))
  · exact Or.inr (Or.inr (Or.inl (strippedLine_mem _ _ _ hC)))
  · exact Or.inr (Or.inr (Or.inr (Or.inl (optLine_mem _ _ _ hD))))
  · rcases hE with rfl | hE0
    · exact Or.inr (Or.inr (Or.inr (Or.inr (Or.inl rfl))))
    · cases hE0
  · exact Or.inr (Or.inr (Or.inr (Or.inr (Or.inr (optLine_mem _ _ _ hF)))))

theorem nl_notin_renderFlow (L : List JStr) (h : ∀ e ∈ L, '\n' ∉ e) :
    '\n' ∉ renderFlow L := by
  unfold renderFlow
  intro hm
  rcases List.mem_cons.mp hm with he | hm2
  · exact absurd he (by decide)
  · rcases List.mem_append.mp hm2 with hv | he2
    · have hr : ∀ e ∈ L.map renderScalar, '\n' ∉ e := by
        intro e he
        rcases List.mem_map.mp he with ⟨x, hx, rfl⟩
        exact nl_notin_renderScalar x (h x hx)
      exact nl_notin_joinCS _ hr hv
    · rcases List.mem_singleton.mp he2 with he3
      exact absurd he3 (by decide)

/-- Fields of a safe record: the value behind any present field is safe. -/
theorem safeOpt_val (v : Option JStr) (hv : SafeOpt v) (x : JStr) (hx : v = some x) :
    SafeVal x := by
  rw [hx] at hv
  exact hv

theorem dumpLines_nl (c : CleanMeta) (h : SafeClean c) :
    ∀ l ∈ dumpLines c, '\n' ∉ l := by
  obtain ⟨h1, h2, h3, h4, h5, h6⟩ := h
  have htagnl : ∀ e ∈ c.tags, '\n' ∉ e := fun e he => (h6 e he).2.2.1
  intro l hl
  rcases dumpLines_mem c l hl with ⟨x, hx, rfl⟩ | ⟨x, hx, rfl⟩ | ⟨x, hx, rfl⟩ |
    ⟨x, hx, rfl⟩ | rfl | ⟨x, hx, rfl⟩
  · exact nl_notin_keyline _ (by decide) _ (nl_notin_renderScalar x (safeOpt_val _ h1 x hx).1)
  · exact nl_notin_keyline _ (by decide) _ (nl_notin_renderScalar x (safeOpt_val _ h2 x hx).1)
  · exact nl_notin_keyline _ (by decide) _ (nl_notin_renderScalar x (safeOpt_val _ h3 x hx).1)
  · exact nl_notin_keyline _ (by decide) _ (nl_notin_renderScalar x (safeOpt_val _ h4 x hx).1)
  · exact nl_notin_keyline _ (by decide) _ (nl_notin_renderFlow c.tags htagnl)
  · exact nl_notin_keyline _ (by decide) _ (nl_notin_renderScalar x (safeOpt_val _ h5 x hx).1)

theorem key_line_ne_nil (kp : JStr) (hk : kp ≠ []) (x : JStr) : kp ++ x ≠ [] := by
  intro hc
  rw [List.append_eq_nil] at hc
  exact hk hc.1

theorem procLines_ne_nil_lines (c : CleanMeta) : ∀ l ∈ procLines c, l ≠ [] := by
  intro l hl
  rcases procLines_mem c l hl with ⟨x, hx, rfl⟩ | ⟨x, hx, rfl⟩ | ⟨x, hx, rfl⟩ |
    ⟨x, hx, rfl⟩ | rfl | ⟨x, hx, rfl⟩
  · exact key_line_ne_nil _ (by decide) _
  · exact key_line_ne_nil _ (by decide) _
  · exact key_line_ne_nil _ (by decide) _
  · exact key_line_ne_nil _ (by decide) _
  · exact key_line_ne_nil _ (by decide) _
  · exact key_line_ne_nil _ (by decide) _

theorem dumpLines_ne_nil (c : CleanMeta) : dumpLines c ≠ [] := by
  unfold dumpLines
  simp

/-- On safe metadata, `stringifyMetadata` is exactly the joined processed
line list. -/
theorem stringifyMetadata_eq (m : Metadata) (h : SafeClean (cleanMeta m)) :
    stringifyMetadata m = joinNL (procLines (cleanMeta m)) := by
  unfold stringifyMetadata
  rw [yamlDump_eq]
  rw [splitNL_joinNL (dumpLines (cleanMeta m)) (dumpLines_nl _ h) (dumpLines_ne_nil _)]
  rw [List.map_append, map_processLine_dumpLines _ h]
  have hmapnil : ([[]] : List JStr).map processLine = [[]] := rfl
  rw [hmapnil, List.filter_append]
  have hfilnil : ([[]] : List JStr).filter (fun l => !l.isEmpty) = [] := rfl
  rw [hfilnil, List.append_nil]
  have hself : (procLines (cleanMeta m)).filter (fun l => !l.isEmpty) =
      procLines (cleanMeta m) := by
    rw [List.filter_eq_self]
    intro a ha
    simp only [Bool.not_eq_true']
    cases a with
    | nil => exact absurd rfl (procLines_ne_nil_lines (cleanMeta m) [] ha)
    | cons c t => rfl
  rw [hself]

theorem noTriple_line (kp k' x : JStr) (hsplit : kp = k' ++ [' '])
    (hk : noTriple k' = true) (hx : noTriple x = true) : noTriple (kp ++ x) = true := by
  subst hsplit
  have he : (k' ++ [' ']) ++ x = k' ++ ' ' :: x := by simp
  rw [he]
  exact noTriple_append_sep ' ' (by decide) k' x hk hx

theorem noTriple_flowPlain (L : List JStr) (h : ∀ e ∈ L, noTriple e = true) :
    noTriple (flowPlain L) = true := by
  unfold flowPlain
  exact noTriple_cons_safe '[' _ (by decide)
    (noTriple_append_sep ']' (by decide) (joinCS L) [] (noTriple_joinCS L h) rfl)

theorem procLines_noTriple (c : CleanMeta) (h : SafeClean c) :
    ∀ l ∈ procLines c, noTriple l = true := by
  obtain ⟨h1, h2, h3, h4, h5, h6⟩ := h
  have htagt : ∀ e ∈ c.tags, noTriple e = true := fun e he => (h6 e he).2.2.2.2
  intro l hl
  rcases procLines_mem c l hl with ⟨x, hx, rfl⟩ | ⟨x, hx, rfl⟩ | ⟨x, hx, rfl⟩ |
    ⟨x, hx, rfl⟩ | rfl | ⟨x, hx, rfl⟩
  · exact noTriple_line _ (str "title:") _ rfl (by decide)
      (noTriple_renderScalar x (safeOpt_val _ h1 x hx).2.2)
  · exact noTriple_line _ (str "published:") _ rfl (by decide) (safeOpt_val _ h2 x hx).2.2
  · exact noTriple_line _ (str "updated:") _ rfl (by decide) (safeOpt_val _ h3 x hx).2.2
  · exact noTriple_line _ (str "description:") _ rfl (by decide)
      (noTriple_renderScalar x (safeOpt_val _ h4 x hx).2.2)
  · exact noTriple_line _ (str "tags:") _ rfl (by decide) (noTriple_flowPlain c.tags htagt)
  · exact noTriple_line _ (str "category:") _ rfl (by decide)
      (noTriple_renderScalar x (safeOpt_val _ h5 x hx).2.2)

theorem stringify_noTriple (m : Metadata) (h : SafeClean (cleanMeta m)) :
    noTriple (stringifyMetadata m) = true := by
  rw [stringifyMetadata_eq m h]
  exact noTriple_joinNL _ (procLines_noTriple _ h)

/-! Reading the processed block back through the modelled YAML parser. -/

theorem findVal_append_none (kp : JStr) (A B : List JStr) (hA : findVal kp A = none) :
    findVal kp (A ++ B) = findVal kp B := by
  rw [findVal_append, hA]

theorem findVal_optLine_self (kp : JStr) (v : Option JStr) :
    findVal kp (optLine kp v) = v.map renderScalar := by
  cases v with
  | none => rfl
  | some x => exact findVal_cons_pos kp (renderScalar x) []

theorem findVal_strippedLine_self (kp : JStr) (v : Option JStr) :
    findVal kp (strippedLine kp v) = v := by
  cases v with
  | none => rfl
  | some x => exact findVal_cons_pos kp x []

theorem findVal_optLine_ne (kp kp' : JStr) (h : ∀ w, kp.isPrefixOf (kp' ++ w) = false)
    (v : Option JStr) : findVal kp (optLine kp' v) = none := by
  cases v with
  | none => rfl
  | some x => rw [optLine, findVal_cons_neg _ _ _ (h _)]; rfl

theorem findVal_strippedLine_ne (kp kp' : JStr)
    (h : ∀ w, kp.isPrefixOf (kp' ++ w) = false) (v : Option JStr) :
    findVal kp (strippedLine kp' v) = none := by
  cases v with
  | none => rfl
  | some x => rw [strippedLine, findVal_cons_neg _ _ _ (h _)]; rfl

theorem findVal_tagsline_ne (kp : JStr) (h : ∀ w, kp.isPrefixOf (kTagsP ++ w) = false)
    (w : JStr) : findVal kp [kTagsP ++ w] = none := by
  rw [findVal_cons_neg _ _ _ (h w)]; rfl

theorem findVal_title (c : CleanMeta) :
    findVal kTitleP ([] :: (procLines c ++ [[]])) = c.title.map renderScalar := by
  rw [findVal_cons_neg kTitleP [] _ rfl]
  unfold procLines
  simp only [List.append_assoc]
  rw [findVal_append, findVal_optLine_self]
  cases htv : c.title with
  | some x => rfl
  | none =>
    rw [findVal_append_none _ _ _ (findVal_strippedLine_ne kTitleP kPubP (fun _ => rfl) _)]
    rw [findVal_append_none _ _ _ (findVal_strippedLine_ne kTitleP kUpdP (fun _ => rfl) _)]
    rw [findVal_append_none _ _ _ (findVal_optLine_ne kTitleP kDescP (fun _ => rfl) _)]
    rw [findVal_append_none _ _ _ (findVal_tagsline_ne kTitleP (fun _ => rfl) _)]
    rw [findVal_append_none _ _ _ (findVal_optLine_ne kTitleP kCatP (fun _ => rfl) _)]
    rfl

theorem findVal_pub (c : CleanMeta) :
    findVal kPubP ([] :: (procLines c ++ [[]])) = c.published := by
  rw [findVal_cons_neg kPubP [] _ rfl]
  unfold procLines
  simp only [List.append_assoc]
  rw [findVal_append_none _ _ _ (findVal_optLine_ne kPubP kTitleP (fun _ => rfl) _)]
  rw [findVal_append, findVal_strippedLine_self]
  cases htv : c.published with
  | some x => rfl
  | none =>
    rw [findVal_append_none _ _ _ (findVal_strippedLine_ne kPubP kUpdP (fun _ => rfl) _)]
    rw [findVal_append_none _ _ _ (findVal_optLine_ne kPubP kDescP (fun _ => rfl) _)]
    rw [findVal_append_none _ _ _ (findVal_tagsline_ne kPubP (fun _ => rfl) _)]
    rw [findVal_append_none _ _ _ (findVal_optLine_ne kPubP kCatP (fun _ => rfl) _)]
    rfl

theorem findVal_upd (c : CleanMeta) :
    findVal kUpdP ([] :: (procLines c ++ [[]])) = c.updated := by
  rw [findVal_cons_neg kUpdP [] _ rfl]
  unfold procLines
  simp only [List.append_assoc]
  rw [findVal_append_none _ _ _ (findVal_optLine_ne kUpdP kTitleP (fun _ => rfl) _)]
  rw [findVal_append_none _ _ _ (findVal_strippedLine_ne kUpdP kPubP (fun _ => rfl) _)]
  rw [findVal_append, findVal_strippedLine_self]
  cases htv : c.updated with
  | some x => rfl
  | none =>
    rw [findVal_append_none _ _ _ (findVal_optLine_ne kUpdP kDescP (fun _ => rfl) _)]
    rw [findVal_append_none _ _ _ (findVal_tagsline_ne kUpdP (fun _ => rfl) _)]
    rw [findVal_append_none _ _ _ (findVal_optLine_ne kUpdP kCatP (fun _ => rfl) _)]
    rfl

theorem findVal_desc (c : CleanMeta) :
    findVal kDescP ([] :: (procLines c ++ [[]])) = c.description.map renderScalar := by
  rw [findVal_cons_neg kDescP [] _ rfl]
  unfold procLines
  simp only [List.append_assoc]
  rw [findVal_append_none _ _ _ (findVal_optLine_ne kDescP kTitleP (fun _ => rfl) _)]
  rw [findVal_append_none _ _ _ (findVal_strippedLine_ne kDescP kPubP (fun _ => rfl) _)]
  rw [findVal_append_none _ _ _ (findVal_strippedLine_ne kDescP kUpdP (fun _ => rfl) _)]
  rw [findVal_append, findVal_optLine_self]
  cases htv : c.description with
  | some x => rfl
  | none =>
    rw [findVal_append_none _ _ _ (findVal_tagsline_ne kDescP (fun _ => rfl) _)]
    rw [findVal_append_none _ _ _ (findVal_optLine_ne kDescP kCatP (fun _ => rfl) _)]
    rfl

theorem findVal_tags (c : CleanMeta) :
    findVal kTagsP ([] :: (procLines c ++ [[]])) = some (flowPlain c.tags) := by
  rw [findVal_cons_neg kTagsP [] _ rfl]
  unfold procLines
  simp only [List.append_assoc]
  rw [findVal_append_none _ _ _ (findVal_optLine_ne kTagsP kTitleP (fun _ => rfl) _)]
  rw [findVal_append_none _ _ _ (findVal_strippedLine_ne kTagsP kPubP (fun _ => rfl) _)]
  rw [findVal_append_none _ _ _ (findVal_strippedLine_ne kTagsP kUpdP (fun _ => rfl) _)]
  rw [findVal_append_none _ _ _ (findVal_optLine_ne kTagsP kDescP (fun _ => rfl) _)]
  simp only [List.nil_append, List.cons_append]
  exact findVal_cons_pos kTagsP (flowPlain c.tags) _

theorem findVal_cat (c : CleanMeta) :
    findVal kCatP ([] :: (procLines c ++ [[]])) = c.category.map renderScalar := by
  rw [findVal_cons_neg kCatP [] _ rfl]
  unfold procLines
  simp only [List.append_assoc]
  rw [findVal_append_none _ _ _ (findVal_optLine_ne kCatP kTitleP (fun _ => rfl) _)]
  rw [findVal_append_none _ _ _ (findVal_strippedLine_ne kCatP kPubP (fun _ => rfl) _)]
  rw [findVal_append_none _ _ _ (findVal_strippedLine_ne kCatP kUpdP (fun _ => rfl) _)]
  rw [findVal_append_none _ _ _ (findVal_optLine_ne kCatP kDescP (fun _ => rfl) _)]
  rw [findVal_append_none _ _ _ (findVal_tagsline_ne kCatP (fun _ => rfl) _)]
  rw [findVal_append, findVal_optLine_self]
  cases htv : c.category with
  | some x => rfl
  | none => rfl

/-- What a clean record reads back as: same scalars, tags as a sequence. -/
def metaOfClean (c : CleanMeta) : Metadata :=
  ⟨c.title, c.published, c.updated, c.description, some (Sum.inr c.tags), c.category⟩

theorem yamlLoad_def (s : JStr) : yamlLoad s =
    { title := (findVal kTitleP (splitNL s)).map parseScalar
      published := (findVal kPubP (splitNL s)).map parseScalar
      updated := (findVal kUpdP (splitNL s)).map parseScalar
      description := (findVal kDescP (splitNL s)).map parseScalar
      tags := (findVal kTagsP (splitNL s)).map parseTagsVal
      category := (findVal kCatP (splitNL s)).map parseScalar } := rfl

theorem procLines_ne (c : CleanMeta) : procLines c ≠ [] := by
  unfold procLines
  simp

theorem map_parseScalar_render (v : Option JStr) (hv : SafeOpt v) :
    ((v.map renderScalar).map parseScalar) = v := by
  cases v with
  | none => rfl
  | some x =>
    show some (parseScalar (renderScalar x)) = some x
    rw [parseScalar_renderScalar x hv.2.1]

theorem map_parseScalar_plain (v : Option JStr) (hv : SafeOpt v) :
    (v.map parseScalar) = v := by
  cases v with
  | none => rfl
  | some x =>
    show some (parseScalar x) = some x
    rw [parseScalar_no_quote x hv.2.1]

theorem parseTagsVal_flowPlain (L : List JStr) (h : ∀ e ∈ L, SafeTag e) :
    parseTagsVal (flowPlain L) = Sum.inr L := by
  unfold parseTagsVal
  rw [if_pos (show (flowPlain L).head? = some '[' from rfl)]
  rw [show flowPlain L = '[' :: (joinCS L ++ [']']) from rfl]
  rw [parseFlow_flow L h]

/-- Reading the serialized block back: every safe field survives, and the
tags come back as the normalized sequence. -/
theorem yamlLoad_block (c : CleanMeta) (h : SafeClean c) :
    yamlLoad ('\n' :: (joinNL (procLines c) ++ ['\n'])) = metaOfClean c := by
  obtain ⟨h1, h2, h3, h4, h5, h6⟩ := h
  have hsplit : splitNL ('\n' :: (joinNL (procLines c) ++ ['\n'])) =
      [] :: (procLines c ++ [[]]) := by
    show splitChar '\n' _ = _
    rw [splitChar_sep]
    rw [show splitChar '\n' (joinNL (procLines c) ++ ['\n']) =
        splitNL (joinNL (procLines c) ++ ['\n']) from rfl]
    rw [splitNL_joinNL _ (procLines_nl c ⟨h1, h2, h3, h4, h5, h6⟩) (procLines_ne c)]
  rw [yamlLoad_def, hsplit]
  rw [findVal_title, findVal_pub, findVal_upd, findVal_desc, findVal_tags, findVal_cat]
  rw [map_parseScalar_render _ h1, map_parseScalar_plain _ h2, map_parseScalar_plain _ h3,
      map_parseScalar_render _ h4, map_parseScalar_render _ h5]
  show Metadata.mk _ _ _ _ (some (parseTagsVal (flowPlain c.tags))) _ = _
  rw [parseTagsVal_flowPlain c.tags h6]
  rfl

/-- The round-trip core: parsing the serialization of safe metadata and an
arbitrary body recovers the metadata (tags normalized to a sequence) and
the trimmed body. -/
theorem roundtrip_main (m : Metadata) (b : JStr) (h : SafeClean (cleanMeta m)) :
    parseContent (createFullMarkdown m b) =
      ⟨metaOfClean (cleanMeta m), jsTrim b⟩ := by
  rw [createFullMarkdown, parseContent_full _ _ (stringify_noTriple m h)]
  rw [stringifyMetadata_eq m h]
  have he : ('\n' :: joinNL (procLines (cleanMeta m))) ++ ['\n'] =
      '\n' :: (joinNL (procLines (cleanMeta m)) ++ ['\n']) := by simp
  rw [he, yamlLoad_block _ h]

example :
    parseContent (createFullMarkdown
      ⟨some (str "Hello"), some (str "2024-01-01"), none, some (str ""),
       some (Sum.inl (str "a, b , c")), some (str "x")⟩ (str "Body --- text\n")) =
      ⟨⟨some (str "Hello"), some (str "2024-01-01"), none, some (str ""),
        some (Sum.inr [str "a", str "b", str "c"]), some (str "x")⟩,
       str "Body --- text"⟩ := by decide

/-! Projection lemmas for the editor-state pipeline. -/

theorem storeLookup_set (st : Storage) (k : JStr) (d : Draft) :
    storeLookup (storeSet st k d) k = some d := by
  simp [storeLookup, storeSet]

theorem storeLookup_remove (st : Storage) (k : JStr) :
    storeLookup (storeRemove st k) k = none := by
  induction st with
  | nil => rfl
  | cons e t ih =>
    show storeLookup (List.filter (fun x => !(x.1 == k)) (e :: t)) k = none
    rw [List.filter_cons]
    cases h : (!(e.1 == k)) with
    | false =>
      rw [if_neg (by decide)]
      exact ih
    | true =>
      rw [if_pos rfl]
      have hne : e.1 ≠ k := by
        simp only [Bool.not_eq_true'] at h
        exact fun hc => by simp [hc] at h
      show (if e.1 = k then some e.2 else storeLookup (List.filter _ t) k) = none
      rw [if_neg hne]
      exact ih

theorem markAsDirty_storage (s : AppState) : (markAsDirty s).storage = s.storage := by
  unfold markAsDirty; split <;> rfl

theorem markAsDirty_fields (s : AppState) : (markAsDirty s).fields = s.fields := by
  unfold markAsDirty; split <;> rfl

theorem markAsDirty_user (s : AppState) : (markAsDirty s).user = s.user := by
  unfold markAsDirty; split <;> rfl

theorem markAsDirty_repo (s : AppState) : (markAsDirty s).repo = s.repo := by
  unfold markAsDirty; split <;> rfl

theorem markAsDirty_today (s : AppState) : (markAsDirty s).today = s.today := by
  unfold markAsDirty; split <;> rfl

theorem markAsDirty_currentFile (s : AppState) :
    (markAsDirty s).currentFile = s.currentFile := by
  unfold markAsDirty; split <;> rfl

theorem markAsDirty_true (s : AppState) (hd : s.isDirty = false)
    (hp : s.currentFile.path ≠ none) : (markAsDirty s).isDirty = true := by
  unfold markAsDirty
  rw [if_pos ⟨by rw [hd]; decide, hp⟩]

theorem saveDraft_user (s : AppState) : (saveDraft s).user = s.user := by
  unfold saveDraft markAsClean
  repeat' split
  all_goals rfl

theorem saveDraft_repo (s : AppState) : (saveDraft s).repo = s.repo := by
  unfold saveDraft markAsClean
  repeat' split
  all_goals rfl

theorem saveDraft_today (s : AppState) : (saveDraft s).today = s.today := by
  unfold saveDraft markAsClean
  repeat' split
  all_goals rfl

/-- The state `handleFileClick` has built when the divergence check starts. -/
def openPre (p rc sha : JStr) (s0 : AppState) : AppState :=
  let s1 := saveDraft s0
  let s2 := { s1 with currentFile := { s1.currentFile with path := some p } }
  let s3 := { s2 with currentFile := { path := some p, sha := some sha, isNew := false } }
  let pc := parseContent rc
  let s4 := populateEditor pc.metadata pc.body s3
  let s5 := if (match pc.metadata.published with | none => true | some v => v.isEmpty) then
              setTodaysDate s4 else s4
  markAsClean s5

theorem openFile_eq (accept : Bool) (p rc sha : JStr) (s0 : AppState) :
    openFile accept p rc sha s0 = loadDraft p (parseContent rc) accept (openPre p rc sha s0) := rfl

theorem openPre_storage (p rc sha : JStr) (s0 : AppState) :
    (openPre p rc sha s0).storage = (saveDraft s0).storage := by
  simp only [openPre, markAsClean, setTodaysDate, populateEditor, apply_ite,
    markAsDirty_storage, ite_self]

theorem openPre_user (p rc sha : JStr) (s0 : AppState) :
    (openPre p rc sha s0).user = s0.user := by
  simp only [openPre, markAsClean, setTodaysDate, populateEditor, apply_ite,
    markAsDirty_user, ite_self, saveDraft_user]

theorem openPre_repo (p rc sha : JStr) (s0 : AppState) :
    (openPre p rc sha s0).repo = s0.repo := by
  simp only [openPre, markAsClean, setTodaysDate, populateEditor, apply_ite,
    markAsDirty_repo, ite_self, saveDraft_repo]

theorem openPre_isDirty (p rc sha : JStr) (s0 : AppState) :
    (openPre p rc sha s0).isDirty = false := rfl

theorem openPre_path (p rc sha : JStr) (s0 : AppState) :
    (openPre p rc sha s0).currentFile = ⟨some p, some sha, false⟩ := by
  simp only [openPre, markAsClean, setTodaysDate, populateEditor, apply_ite,
    markAsDirty_currentFile, ite_self]

theorem openPre_fields (p rc sha : JStr) (s0 : AppState) :
    (openPre p rc sha s0).fields = remoteDisplay (parseContent rc) s0.today := by
  simp only [openPre, markAsClean, populateEditor]
  by_cases hc : (match (parseContent rc).metadata.published with
    | none => true
    | some v => v.isEmpty) = true
  · rw [if_pos hc, remoteDisplay, if_pos hc]
    simp only [setTodaysDate, markAsDirty_fields, markAsDirty_today, saveDraft_today]
  · rw [if_neg hc, remoteDisplay, if_neg hc]
    simp only [markAsDirty_fields]

theorem draftKeyOf_congr (s s' : AppState) (p : JStr) (hu : s.user = s'.user)
    (hr : s.repo = s'.repo) : draftKeyOf s p = draftKeyOf s' p := by
  unfold draftKeyOf
  rw [hu, hr]

/-! Concrete fixtures used in witnesses and counterexamples. -/

/-- A logged-in editor state with no file open and an empty draft store. -/
def baseState : AppState :=
  { user := str "u", repo := str "r", pat := str "tok",
    currentFile := ⟨none, none, false⟩,
    fields := ⟨[], [], [], [], [], [], []⟩,
    isDirty := false, vditorReady := true, storage := [], quotaFull := false,
    now := str "12:00:00", today := str "2026-10-11",
    statusMsg := [], statusIsError := false }

/-! Claim theorems. -/

/-- C3 counterexample: the claim demands that parsing the serialization
reproduces the body exactly, but `parseContent` trims the reassembled body,
so a body with trailing whitespace comes back shortened. -/
theorem c3_cex :
    (parseContent (createFullMarkdown Metadata.empty (str "x "))).body = str "x" ∧
    ¬ (parseContent (createFullMarkdown Metadata.empty (str "x "))).body = str "x " := by
  decide

/-- C3 (amended): for metadata whose present fields are single-line,
quote-free and free of the `---` delimiter (and whose normalized tag
entries are nonempty and comma-free), parsing the serialization reproduces
every metadata field up to the tags string-to-sequence normalization, and
reproduces the body up to trimming of leading and trailing whitespace. -/
theorem c3_amended (m : Metadata) (b : JStr) (h : SafeClean (cleanMeta m)) :
    parseContent (createFullMarkdown m b) = ⟨metaOfClean (cleanMeta m), jsTrim b⟩ :=
  roundtrip_main m b h

/-- Concrete instantiation data for the C3 witness. -/
def c3wm : Metadata :=
  ⟨some (str "Title"), some (str "2024-01-01"), none, some (str ""),
   some (Sum.inl (str "a, b")), some (str "cat")⟩

theorem c3_witness :
    parseContent (createFullMarkdown c3wm (str " body ")) =
      ⟨metaOfClean (cleanMeta c3wm), jsTrim (str " body ")⟩ :=
  c3_amended c3wm (str " body ") (by decide)

/-- Metadata whose title smuggles the front-matter delimiter, breaking the
C10 round trip. -/
def c10meta : Metadata :=
  ⟨some (str "x---y"), none, none, none, some (Sum.inl (str "a, b , c")), none⟩

/-- C10 counterexample: with the tags string `"a, b , c"` but a title
containing `---`, the serialized document's delimiter split cuts the
front-matter block short and the parsed tags are lost entirely. -/
theorem c10_cex :
    (parseContent (createFullMarkdown c10meta (str "b"))).metadata.tags = none ∧
    ¬ (parseContent (createFullMarkdown c10meta (str "b"))).metadata.tags =
        some (Sum.inr [str "a", str "b", str "c"]) := by
  decide

/-- C10 (amended): for metadata whose tags field is the string `"a, b , c"`
and whose other present fields are single-line, quote-free and free of
`---`, serializing and then parsing yields the tag sequence
`["a", "b", "c"]`. -/
theorem c10_amended (m : Metadata) (b : JStr)
    (ht : m.tags = some (Sum.inl (str "a, b , c")))
    (h : SafeClean (cleanMeta m)) :
    (parseContent (createFullMarkdown m b)).metadata.tags =
      some (Sum.inr [str "a", str "b", str "c"]) := by
  rw [roundtrip_main m b h]
  show some (Sum.inr (normalizeTags m.tags)) = _
  rw [ht]
  decide

/-- Metadata for the C10 witness. -/
def c10wm : Metadata := ⟨none, none, none, none, some (Sum.inl (str "a, b , c")), none⟩

theorem c10_witness :
    (parseContent (createFullMarkdown c10wm (str "b"))).metadata.tags =
      some (Sum.inr [str "a", str "b", str "c"]) :=
  c10_amended c10wm (str "b") rfl (by decide)

/-- C9: during serialization quote characters are stripped only from lines
whose key is `published`, `updated` or `tags`. The first conjunct pins
`processLine` as the exact per-line post-processing step `stringifyMetadata`
applies; the second states that any line carrying none of the three key
prefixes is returned unchanged, while a line carrying one of them has every
single-quote removed. -/
theorem c9_processLine :
    (∀ m : Metadata, stringifyMetadata m =
      joinNL (((splitNL (yamlDump (cleanMeta m))).map processLine).filter
        (fun l => !l.isEmpty))) ∧
    (∀ l : JStr,
      ((str "published:").isPrefixOf l = false → (str "updated:").isPrefixOf l = false →
        (str "tags:").isPrefixOf l = false → processLine l = l) ∧
      ((str "published:").isPrefixOf l = true ∨ (str "updated:").isPrefixOf l = true ∨
        (str "tags:").isPrefixOf l = true → processLine l = quoteFilter l)) := by
  refine ⟨fun m => rfl, fun l => ⟨?_, ?_⟩⟩
  · intro h1 h2 h3
    unfold processLine
    rw [h1, h2, h3]
    rfl
  · intro h
    unfold processLine
    rcases h with h | h | h <;> rw [h] <;> simp

theorem c9_witness :
    processLine (str "description: 'a'") = str "description: 'a'" ∧
    processLine (str "published: '2024-01-01'") = quoteFilter (str "published: '2024-01-01'") :=
  ⟨(c9_processLine.2 (str "description: 'a'")).1 rfl rfl rfl,
   (c9_processLine.2 (str "published: '2024-01-01'")).2 (Or.inl rfl)⟩

/-- C4: the periodic flush is a no-op without an open path or while clean;
while dirty (with the editor widget present) a successful flush persists a
draft matching the in-memory fields and timestamps it with the current
clock, transitioning to Clean; and on a storage failure the flush returns
normally with the state unchanged except for the error on the status
surface — `saveDraft` is a total function, so no failure escapes the flush
boundary and the interval timer is never torn down. -/
theorem c4_flush (s : AppState) :
    ((s.currentFile.path = none ∨ s.isDirty = false) → saveDraft s = s) ∧
    (∀ p, s.currentFile.path = some p → s.vditorReady = true → s.isDirty = true →
      s.quotaFull = false →
      (saveDraft s).isDirty = false ∧
      storeLookup (saveDraft s).storage (draftKeyOf s p) =
        some ⟨getEditorMetadata s, s.fields.body, s.now⟩) ∧
    (∀ p, s.currentFile.path = some p → s.vditorReady = true → s.isDirty = true →
      s.quotaFull = true →
      saveDraft s = { s with statusMsg := str "无法保存草稿，可能是存储空间已满。",
                             statusIsError := true }) := by
  refine ⟨?_, ?_, ?_⟩
  · intro h
    unfold saveDraft
    rcases h with hp | hd
    · rw [hp]
    · cases hp : s.currentFile.path with
      | none => rfl
      | some p =>
        cases hv : s.vditorReady with
        | false => simp
        | true => simp [hd]
  · intro p hp hv hd hq
    unfold saveDraft
    rw [hp]
    simp only [hv, hd, Bool.not_true, Bool.false_eq_true, if_false]
    unfold saveDraftToStorage
    rw [if_neg (by simp [hq])]
    exact ⟨rfl, storeLookup_set _ _ _⟩
  · intro p hp hv hd hq
    unfold saveDraft
    rw [hp]
    simp only [hv, hd, Bool.not_true, Bool.false_eq_true, if_false]
    unfold saveDraftToStorage
    rw [if_pos hq]

/-- A dirty state with an open file, for the C4 witness. -/
def c4s : AppState :=
  { baseState with currentFile := ⟨some (str "f.md"), some (str "s0"), false⟩,
                   fields := ⟨str "T", str "2024-01-01", str "2024-01-02", str "d",
                              str "a, b", str "c", str "Body"⟩,
                   isDirty := true }

theorem c4_witness :
    (saveDraft c4s).isDirty = false ∧
    storeLookup (saveDraft c4s).storage (draftKeyOf c4s (str "f.md")) =
      some ⟨getEditorMetadata c4s, c4s.fields.body, c4s.now⟩ :=
  (c4_flush c4s).2.1 (str "f.md") rfl rfl rfl rfl

/-- C5: saving an existing (non-new) file with no held version token fails
with the missing-SHA precondition error before any remote call is issued:
the attempted-call trace is empty (so the remote is untouched) and the
resulting state differs from the input only in the error on the status
surface. -/
theorem c5_precondition (resp : RemoteCall → Except JStr JStr) (s : AppState) (p : JStr)
    (hp : s.currentFile.path = some p) (hnew : s.currentFile.isNew = false)
    (hsha : s.currentFile.sha = none) :
    (handleSave resp s).2 = [] ∧
    (handleSave resp s).1 =
      showStatus (str "保存失败: " ++ str "更新文件缺少 SHA。请重新加载文件。") true s := by
  unfold handleSave
  rw [hp]
  simp only [hnew, Bool.false_eq_true, if_false, hsha]
  exact ⟨trivial, trivial⟩

/-- A state holding an existing file with no version token, for the C5
witness. -/
def c5s : AppState :=
  { baseState with currentFile := ⟨some (str "f.md"), none, false⟩ }

theorem c5_witness : (handleSave (fun _ => Except.ok (str "ns")) c5s).2 = [] :=
  (c5_precondition (fun _ => Except.ok (str "ns")) c5s (str "f.md") rfl rfl rfl).1

/-- Separating a list on a separator absent from both left parts is
injective. -/
theorem append_sep_inj (sep : Char) :
    ∀ (a b x y : List Char), sep ∉ a → sep ∉ b →
      a ++ sep :: x = b ++ sep :: y → a = b ∧ x = y := by
  intro a
  induction a with
  | nil =>
    intro b x y _ hb heq
    cases b with
    | nil =>
      rw [List.nil_append, List.nil_append] at heq
      injection heq with _ e2
      exact ⟨rfl, e2⟩
    | cons c b' =>
      rw [List.nil_append, List.cons_append] at heq
      injection heq with e1 _
      exact absurd (e1 ▸ List.mem_cons_self c b') hb
  | cons c a' ih =>
    intro b x y ha hb heq
    cases b with
    | nil =>
      rw [List.nil_append, List.cons_append] at heq
      injection heq with e1 _
      exact absurd (e1 ▸ List.mem_cons_self c a') ha
    | cons d b' =>
      rw [List.cons_append, List.cons_append] at heq
      injection heq with e1 e2
      have ha' : sep ∉ a' := fun hm => ha (List.mem_cons_of_mem c hm)
      have hb' : sep ∉ b' := fun hm => hb (List.mem_cons_of_mem d hm)
      obtain ⟨hab, hxy⟩ := ih b' x y ha' hb' e2
      exact ⟨by rw [e1, hab], hxy⟩

/-- Sessions under colliding repository names, for the C6 counterexample. -/
def c6sA : AppState := { baseState with repo := str "a_b" }

def c6sB : AppState := { baseState with repo := str "a" }

/-- C6 counterexample: the key joins account, repository and path with the
same `_` character that may occur inside them, so the distinct triples
`(u, a_b, p)` and `(u, a, b_p)` collide on the key `draft_u_a_b_p` — a
session under repository `a` can read a draft saved under repository
`a_b`. -/
theorem c6_cex :
    getDraftKey c6sA (some (str "p")) = getDraftKey c6sB (some (str "b_p")) ∧
    ¬ c6sA.repo = c6sB.repo := by
  decide

/-- C6 (amended): the key derivation does incorporate account, repository
and path, and is injective as long as the account and repository names
contain no underscore (paths may contain anything). -/
theorem c6_amended (s1 s2 : AppState) (p1 p2 : JStr)
    (hu1 : '_' ∉ s1.user) (hr1 : '_' ∉ s1.repo)
    (hu2 : '_' ∉ s2.user) (hr2 : '_' ∉ s2.repo)
    (heq : getDraftKey s1 (some p1) = getDraftKey s2 (some p2)) :
    s1.user = s2.user ∧ s1.repo = s2.repo ∧ p1 = p2 := by
  unfold getDraftKey at heq
  injection heq with heq
  have hshape : ∀ (u r p : JStr),
      str "draft_" ++ u ++ str "_" ++ r ++ str "_" ++ p =
        str "draft_" ++ (u ++ '_' :: (r ++ '_' :: p)) := by
    intro u r p
    simp [str]
  rw [hshape, hshape] at heq
  have heq2 := List.append_cancel_left heq
  obtain ⟨hu, hrest⟩ := append_sep_inj '_' _ _ _ _ hu1 hu2 heq2
  obtain ⟨hr, hp⟩ := append_sep_inj '_' _ _ _ _ hr1 hr2 hrest
  exact ⟨hu, hr, hp⟩

theorem c6_witness :
    baseState.user = baseState.user ∧ baseState.repo = baseState.repo ∧
      str "p" = str "p" :=
  c6_amended baseState baseState (str "p") (str "p")
    (by decide) (by decide) (by decide) (by decide) rfl

/-- The state that started a save of `a.md` (its request is in flight). -/
def c7savingState : AppState :=
  { baseState with currentFile := ⟨some (str "a.md"), some (str "shaA"), false⟩,
                   fields := ⟨str "A", [], [], [], [], [], str "body A"⟩ }

/-- The draft of `b.md` sitting in the store when the stale result lands. -/
def c7draft : Draft := ⟨Metadata.empty, str "work in progress", str "2026-10-11T00:00:00Z"⟩

/-- The state after the user navigated to `b.md` while the save of `a.md`
was still in flight. -/
def c7resumeState : AppState :=
  { baseState with currentFile := ⟨some (str "b.md"), some (str "shaB"), false⟩,
                   storage := [(draftKeyOf baseState (str "b.md"), c7draft)],
                   isDirty := true }

/-- C7: the post-await continuation of `handleSave` performs no
captured-path check. A save started for `a.md` whose result lands after the
user switched to `b.md` is not a no-op: it overwrites the active file's
version token with the stale result, deletes `b.md`'s stored draft, and
clears the dirty flag — state that had already moved on is mutated. -/
theorem c7_stale_apply :
    (handleSaveStart c7savingState).map Prod.fst = some (str "a.md") ∧
    c7resumeState.currentFile.path = some (str "b.md") ∧
    storeLookup c7resumeState.storage (draftKeyOf c7resumeState (str "b.md")) =
      some c7draft ∧
    c7resumeState.isDirty = true ∧
    (handleSaveApply (str "shaA2") c7resumeState).currentFile.sha = some (str "shaA2") ∧
    storeLookup (handleSaveApply (str "shaA2") c7resumeState).storage
      (draftKeyOf c7resumeState (str "b.md")) = none ∧
    (handleSaveApply (str "shaA2") c7resumeState).isDirty = false ∧
    ¬ handleSaveApply (str "shaA2") c7resumeState = c7resumeState := by
  decide

/-- A dirty state with an open file, for the C8 counterexample. -/
def c8s : AppState :=
  { baseState with currentFile := ⟨some (str "a.md"), some (str "s"), false⟩,
                   isDirty := true }

/-- C8 counterexample: leaving the active file (here through
`resetEditorState`, as file deletion and logout do) nulls the path but does
not reset the dirty flag — the dirty state survives into the
no-file-selected state, contradicting the claim. -/
theorem c8_cex :
    (resetEditorState c8s).currentFile.path = none ∧
    (resetEditorState c8s).isDirty = true ∧
    (logout c8s).currentFile.path = none ∧
    (logout c8s).isDirty = true := by
  decide

/-- C8 (amended): whenever the ActiveFile becomes null through
`resetEditorState` or `logout`, the DirtyFlag is left unchanged rather
than reset, so a dirty flag can survive into the no-file-selected state
(where the periodic flush ignores it, since it requires a path). -/
theorem c8_amended (s : AppState) :
    (resetEditorState s).currentFile.path = none ∧
    (resetEditorState s).isDirty = s.isDirty ∧
    (logout s).currentFile.path = none ∧
    (logout s).isDirty = s.isDirty ∧
    (s.currentFile.path = none → saveDraft s = s) := by
  refine ⟨rfl, rfl, rfl, rfl, ?_⟩
  intro hp
  unfold saveDraft
  rw [hp]

theorem c8_witness :
    saveDraft (resetEditorState c8s) = resetEditorState c8s :=
  (c8_amended (resetEditorState c8s)).2.2.2.2 rfl

/-- C1 (amended): opening a file for which the post-flush store holds a
draft whose serialized text differs (after trimming) from the serialized
remote content prompts exactly once, with the draft's save timestamp.
Accepting displays the draft's metadata and body and the state becomes
Dirty; declining deletes the draft and leaves the display equal to the
remote content's rendering — except that, as on every load, a missing
published date is defaulted to today's date in the date fields. -/
theorem c1_amended (accept : Bool) (p rc sha : JStr) (s0 : AppState) (draft : Draft)
    (hkey : storeLookup (saveDraft s0).storage (draftKeyOf s0 p) = some draft)
    (hdiff : ¬ jsTrim (createFullMarkdown (parseContent rc).metadata
        (parseContent rc).body) =
      jsTrim (createFullMarkdown draft.metadata draft.body)) :
    (openFile accept p rc sha s0).2 = [draft.savedAt] ∧
    (accept = true →
      (openFile accept p rc sha s0).1.fields = draftDisplay draft ∧
      (openFile accept p rc sha s0).1.isDirty = true) ∧
    (accept = false →
      storeLookup (openFile accept p rc sha s0).1.storage (draftKeyOf s0 p) = none ∧
      (openFile accept p rc sha s0).1.fields = remoteDisplay (parseContent rc) s0.today ∧
      (openFile accept p rc sha s0).1.isDirty = false) := by
  have hk : draftKeyOf (openPre p rc sha s0) p = draftKeyOf s0 p :=
    draftKeyOf_congr _ _ p (openPre_user p rc sha s0) (openPre_repo p rc sha s0)
  have hload : loadDraftFromStorage (openPre p rc sha s0) p = some draft := by
    unfold loadDraftFromStorage
    rw [hk, openPre_storage, hkey]
  rw [openFile_eq]
  unfold loadDraft
  rw [hload]
  dsimp only
  rw [if_neg hdiff]
  cases accept with
  | true =>
    rw [if_pos rfl]
    refine ⟨rfl, fun _ => ⟨?_, ?_⟩, fun hc => absurd hc (by decide)⟩
    · show (populateEditor draft.metadata draft.body (openPre p rc sha s0)).fields = _
      unfold populateEditor draftDisplay
      rw [markAsDirty_fields]
    · show (populateEditor draft.metadata draft.body (openPre p rc sha s0)).isDirty = true
      unfold populateEditor
      apply markAsDirty_true
      · show (openPre p rc sha s0).isDirty = false
        exact openPre_isDirty p rc sha s0
      · show (openPre p rc sha s0).currentFile.path ≠ none
        rw [openPre_path]
        simp
  | false =>
    rw [if_neg (by decide : ¬ false = true)]
    refine ⟨rfl, fun hc => absurd hc (by decide), fun _ => ⟨?_, ?_, ?_⟩⟩
    · show storeLookup (clearDraft p (openPre p rc sha s0)).storage (draftKeyOf s0 p) = none
      unfold clearDraft
      show storeLookup (storeRemove (openPre p rc sha s0).storage
        (draftKeyOf (openPre p rc sha s0) p)) (draftKeyOf s0 p) = none
      rw [hk]
      exact storeLookup_remove _ _
    · show (clearDraft p (openPre p rc sha s0)).fields = _
      unfold clearDraft
      show (openPre p rc sha s0).fields = _
      exact openPre_fields p rc sha s0
    · show (clearDraft p (openPre p rc sha s0)).isDirty = false
      unfold clearDraft
      exact openPre_isDirty p rc sha s0

/-- A differing stored draft for `p.md`, used by the C1 fixtures. -/
def c1draft : Draft := ⟨Metadata.empty, str "draft body", str "2026-01-02 03:04"⟩

/-- A clean session whose store holds `c1draft` under `p.md`. -/
def c1s0 : AppState :=
  { baseState with storage := [(draftKeyOf baseState (str "p.md"), c1draft)] }

theorem c1_witness :
    (openFile true (str "p.md") (str "hello") (str "sha1") c1s0).2 =
      [c1draft.savedAt] ∧
    (openFile true (str "p.md") (str "hello") (str "sha1") c1s0).1.isDirty = true := by
  have h := c1_amended true (str "p.md") (str "hello") (str "sha1") c1s0 c1draft
    (by decide) (by decide)
  exact ⟨h.1, (h.2.1 rfl).2⟩

/-- C1 counterexample: on declining the divergence prompt for a remote file
with no front matter, the displayed date fields hold today's date (injected
by `setTodaysDate`), so the displayed content is not exactly the remote
content's rendering, although the prompt fired once and the draft was
deleted as claimed. -/
theorem c1_cex :
    (openFile false (str "p.md") (str "hello") (str "sha1") c1s0).2 =
      [c1draft.savedAt] ∧
    storeLookup (openFile false (str "p.md") (str "hello") (str "sha1") c1s0).1.storage
      (draftKeyOf c1s0 (str "p.md")) = none ∧
    (openFile false (str "p.md") (str "hello") (str "sha1") c1s0).1.fields.published =
      str "2026-10-11" ∧
    ¬ (openFile false (str "p.md") (str "hello") (str "sha1") c1s0).1.fields =
        displayFields (parseContent (str "hello")).metadata
          (parseContent (str "hello")).body := by
  decide

/-- C2 (amended): opening a file with no stored draft never prompts and
displays the remote content's rendering; with a stored draft serializing
identically (after trimming) to the remote content, the draft is deleted
silently and the remote content is displayed without prompting. In both
cases, when the remote front matter lacks a published date the displayed
date fields are defaulted to today's date. -/
theorem c2_amended (accept : Bool) (p rc sha : JStr) (s0 : AppState) :
    (storeLookup (saveDraft s0).storage (draftKeyOf s0 p) = none →
      (openFile accept p rc sha s0).2 = [] ∧
      (openFile accept p rc sha s0).1.fields = remoteDisplay (parseContent rc) s0.today ∧
      (openFile accept p rc sha s0).1.isDirty = false) ∧
    (∀ draft, storeLookup (saveDraft s0).storage (draftKeyOf s0 p) = some draft →
      jsTrim (createFullMarkdown (parseContent rc).metadata (parseContent rc).body) =
        jsTrim (createFullMarkdown draft.metadata draft.body) →
      (openFile accept p rc sha s0).2 = [] ∧
      storeLookup (openFile accept p rc sha s0).1.storage (draftKeyOf s0 p) = none ∧
      (openFile accept p rc sha s0).1.fields = remoteDisplay (parseContent rc) s0.today ∧
      (openFile accept p rc sha s0).1.isDirty = false) := by
  have hk : draftKeyOf (openPre p rc sha s0) p = draftKeyOf s0 p :=
    draftKeyOf_congr _ _ p (openPre_user p rc sha s0) (openPre_repo p rc sha s0)
  constructor
  · intro hnone
    have hload : loadDraftFromStorage (openPre p rc sha s0) p = none := by
      unfold loadDraftFromStorage
      rw [hk, openPre_storage, hnone]
    rw [openFile_eq]
    unfold loadDraft
    rw [hload]
    exact ⟨rfl, openPre_fields p rc sha s0, openPre_isDirty p rc sha s0⟩
  · intro draft hkey hsame
    have hload : loadDraftFromStorage (openPre p rc sha s0) p = some draft := by
      unfold loadDraftFromStorage
      rw [hk, openPre_storage, hkey]
    rw [openFile_eq]
    unfold loadDraft
    rw [hload]
    dsimp only
    rw [if_pos hsame]
    refine ⟨rfl, ?_, ?_, ?_⟩
    · show storeLookup (clearDraft p (openPre p rc sha s0)).storage (draftKeyOf s0 p) = none
      unfold clearDraft
      show storeLookup (storeRemove (openPre p rc sha s0).storage
        (draftKeyOf (openPre p rc sha s0) p)) (draftKeyOf s0 p) = none
      rw [hk]
      exact storeLookup_remove _ _
    · show (clearDraft p (openPre p rc sha s0)).fields = _
      unfold clearDraft
      show (openPre p rc sha s0).fields = _
      exact openPre_fields p rc sha s0
    · show (clearDraft p (openPre p rc sha s0)).isDirty = false
      unfold clearDraft
      exact openPre_isDirty p rc sha s0

theorem c2_witness :
    (openFile true (str "p.md") (str "hello") (str "sha1") baseState).2 = [] :=
  ((c2_amended true (str "p.md") (str "hello") (str "sha1") baseState).1 (by decide)).1

/-- C2 counterexample: opening a remote file with no front matter and no
stored draft indeed never prompts, but the displayed date fields hold
today's date rather than the remote content's (empty) ones, so the display
is not exactly the remote content's rendering. -/
theorem c2_cex :
    (openFile true (str "p.md") (str "hello") (str "sha1") baseState).2 = [] ∧
    (openFile true (str "p.md") (str "hello") (str "sha1") baseState).1.fields.published =
      str "2026-10-11" ∧
    ¬ (openFile true (str "p.md") (str "hello") (str "sha1") baseState).1.fields =
        displayFields (parseContent (str "hello")).metadata
          (parseContent (str "hello")).body := by
  decide
